import Mathlib

/-!
Verification development for the geometric spot grid trading bot
(`gridtrader/utils.py`, `gridtrader/validators.py`, `gridtrader/grid_bot.py`).

Modelling conventions.

The Python code computes with `decimal.Decimal` at context precision 28 and
performs its only explicit rounding through `round_decimal` (quantize with
`ROUND_DOWN`, i.e. truncation toward zero).  The embedding uses exact
rationals `ℚ` for decimal values and models `round_decimal` faithfully;
the 28-significant-digit context rounding of intermediate products and
quotients is idealised as exact arithmetic.

The grid ratio `(upper_price / lower_price) ** (1 / (num_levels - 1))` is a
transcendental `Decimal` power.  The embedding takes the computed ratio as
an explicit parameter `ratio : ℚ` (the value actually produced by the
`Decimal` power) and records the defining property that the idealised value
satisfies, `0 < ratio ∧ ratio ^ (num_levels - 1) = upper_price / lower_price`,
as the predicate `RatioSpec` used as a hypothesis by the theorems.

`TradeLog` omits the wall-clock `timestamp` and the formatted `note` string
of the Python `TradeLog`, which carry no arithmetic content.

Python exceptions are modelled with `Except`; since the Python object keeps
all mutations already committed when an exception escapes, every error value
carries the partially mutated engine state.
-/

namespace GridTrader

/-! ## Arithmetic and rounding module (`utils.py`) -/

/-- Truncation toward zero, the integer part used by `ROUND_DOWN`. -/
def truncToZero (x : ℚ) : ℤ := if 0 ≤ x then ⌊x⌋ else ⌈x⌉

/-- Source `round_decimal`: round `value` down (toward zero) to `precision`
decimal places, by quantizing with rounding mode `ROUND_DOWN`. -/
def round_decimal (value : ℚ) (precision : ℕ) : ℚ :=
  (truncToZero (value * 10 ^ precision) : ℚ) / 10 ^ precision

/-- Trade side, the `Side` literal type of `utils.py`. -/
inductive Side where
  | buy : Side
  | sell : Side
deriving DecidableEq

/-- Source `TradeBreakdown`: structured result of a trade execution. -/
structure TradeBreakdown where
  effective_price : ℚ
  quantity : ℚ
  fee_paid : ℚ
  quote_amount : ℚ
deriving DecidableEq

/-- Source `apply_slippage`: apply slippage to the price depending on side. -/
def apply_slippage (price slippage_rate : ℚ) (side : Side) : ℚ :=
  if slippage_rate ≤ 0 then price
  else price * (if side = Side.buy then 1 + slippage_rate else 1 - slippage_rate)

/-- Source `calculate_fee`: fee amount for a traded amount and fee rate. -/
def calculate_fee (amount fee_rate : ℚ) : ℚ :=
  if fee_rate ≤ 0 then 0 else amount * fee_rate

/-- Source `execute_buy` of `utils.py`: convert a quote amount into base
asset units at the given price. -/
def execute_buy (quote_amount price fee_rate slippage_rate : ℚ)
    (quantity_precision price_precision : ℕ) : TradeBreakdown :=
  let effective_price := apply_slippage price slippage_rate Side.buy
  let base_without_fee := quote_amount / effective_price
  let fee_paid := calculate_fee base_without_fee fee_rate
  let base_after_fee := base_without_fee - fee_paid
  { effective_price := round_decimal effective_price price_precision
    quantity := round_decimal base_after_fee quantity_precision
    fee_paid := round_decimal fee_paid quantity_precision
    quote_amount := round_decimal quote_amount price_precision }

/-- Source `execute_sell` of `utils.py`: convert a base amount into quote
asset units at the given price. -/
def execute_sell (base_amount price fee_rate slippage_rate : ℚ)
    (quantity_precision price_precision : ℕ) : TradeBreakdown :=
  let base_amount := round_decimal base_amount quantity_precision
  let effective_price := apply_slippage price slippage_rate Side.sell
  let quote_without_fee := base_amount * effective_price
  let fee_paid := calculate_fee quote_without_fee fee_rate
  let quote_after_fee := quote_without_fee - fee_paid
  { effective_price := round_decimal effective_price price_precision
    quantity := base_amount
    fee_paid := round_decimal fee_paid price_precision
    quote_amount := round_decimal quote_after_fee price_precision }

/-! ## Data model (`grid_bot.py`) -/

/-- Level status, the `status` string field restricted to its two values. -/
inductive Status where
  | quote : Status
  | base : Status
deriving DecidableEq

/-- Source `GridLevel` dataclass. -/
structure GridLevel where
  price : ℚ
  status : Status := Status.quote
  quote_budget : ℚ := 0
  base_position : ℚ := 0
  last_action : Option Side := none
deriving DecidableEq

/-- Source `TradeLog` dataclass, without the wall-clock timestamp and the
formatted note string. -/
structure TradeLog where
  side : Side
  level_price : ℚ
  execution_price : ℚ
  quantity : ℚ
  quote_amount : ℚ
  fee_paid : ℚ
deriving DecidableEq

/-- The constructor arguments of `GridTradingBotGeomSpot` (the asset id
strings, which are opaque labels, are omitted). -/
structure Config where
  num_levels : ℕ
  lower_price : ℚ
  upper_price : ℚ
  initial_price : ℚ
  base_balance : ℚ
  quote_balance : ℚ
  fee_rate : ℚ
  slippage_rate : ℚ
  price_precision : ℕ
  quantity_precision : ℕ
  eps : ℚ
deriving DecidableEq

/-- The conjunction of all checks performed by `__post_init__` through the
validators: `validate_eps`, `validate_bounds`, `validate_non_negative` on the
balances, `validate_rate` on the two rates.  (`validate_precision` holds by
the use of `ℕ` for the precisions.) -/
def ValidConfig (c : Config) : Prop :=
  0 < c.eps ∧
  c.eps < c.lower_price ∧
  c.eps < c.upper_price ∧
  2 ≤ c.num_levels ∧
  c.lower_price < c.upper_price ∧
  c.eps < c.initial_price ∧
  c.lower_price - c.eps ≤ c.initial_price ∧
  c.initial_price ≤ c.upper_price + c.eps ∧
  -c.eps ≤ c.base_balance ∧
  -c.eps ≤ c.quote_balance ∧
  0 ≤ c.fee_rate ∧ c.fee_rate < 1 ∧
  0 ≤ c.slippage_rate ∧ c.slippage_rate < 1

instance (c : Config) : Decidable (ValidConfig c) := by
  unfold ValidConfig; infer_instance

/-- The defining property of the grid ratio
`(upper_price / lower_price) ** (1 / (num_levels - 1))` computed by
`_build_levels`, idealised as the exact positive real root (see the module
docstring). -/
def RatioSpec (c : Config) (ratio : ℚ) : Prop :=
  0 < ratio ∧ ratio ^ (c.num_levels - 1) = c.upper_price / c.lower_price

instance (c : Config) (ratio : ℚ) : Decidable (RatioSpec c ratio) := by
  unfold RatioSpec; infer_instance

/-- The engine state: the mutable fields of `GridTradingBotGeomSpot`
together with its (validated, immutable) configuration fields. -/
structure Bot where
  num_levels : ℕ
  lower_price : ℚ
  upper_price : ℚ
  initial_price : ℚ
  base_balance : ℚ
  quote_balance : ℚ
  fee_rate : ℚ
  slippage_rate : ℚ
  price_precision : ℕ
  quantity_precision : ℕ
  eps : ℚ
  levels : List GridLevel
  trade_history : List TradeLog
deriving DecidableEq

/-- The `ValueError` exceptions raised during execution: by
`validate_positive` on the tick price, by `ensure_sufficient_balance`, by
`ensure_trade_result`, and by `ensure_non_negative_balance` after the two
passes. -/
inductive GridError where
  | nonPositivePrice : GridError
  | insufficientBalance : GridError
  | nullTrade : GridError
  | negativeBalance : GridError
deriving DecidableEq

/-! ## Grid construction (`_build_levels`) -/

/-- The price generation loop of `_build_levels`: starting from
`lower_price`, append the running price and multiply by the ratio,
`num_levels` times. -/
def gen_prices (price ratio : ℚ) : ℕ → List ℚ
  | 0 => []
  | n + 1 => price :: gen_prices (price * ratio) ratio n

/-- The allocation loop of `_build_levels`: walk the given prices keeping a
running remainder; at each step divide the remainder by the number of levels
left (current one included), round down to `prec` digits, cap at the
remainder, subtract, and record the pair (price, allocation). -/
def alloc_loop (prec : ℕ) : ℚ → List ℚ → List (ℚ × ℚ)
  | _, [] => []
  | remaining, p :: rest =>
      let allocation :=
        min (round_decimal (remaining / ((rest.length + 1 : ℕ) : ℚ)) prec) remaining
      (p, allocation) :: alloc_loop prec (remaining - allocation) rest

/-- First-match association lookup. -/
def lookupQ : List (ℚ × ℚ) → ℚ → Option ℚ
  | [], _ => none
  | (k, v) :: rest, key => if key = k then some v else lookupQ rest key

/-- Python `dict.get(key, Decimal("0"))` over the allocation dict built by
writing the pairs in list order: a later write to the same key overwrites an
earlier one, so the lookup takes the last matching pair. -/
def dictGet (l : List (ℚ × ℚ)) (key : ℚ) : ℚ :=
  (lookupQ l.reverse key).getD 0

/-- Source `_build_levels` with the computed ratio passed explicitly:
generate the geometric prices, split them at `initial_price + eps`, allocate
the base balance over the lower part (quantity precision) and the quote
balance over the upper part (price precision), then build the level records
with prices rounded to price precision. -/
def build_levels (c : Config) (ratio : ℚ) : List GridLevel :=
  let prices := gen_prices c.lower_price ratio c.num_levels
  let base_prices := prices.filter (fun p => p ≤ c.initial_price + c.eps)
  let quote_prices := prices.filter (fun p => ¬ (p ≤ c.initial_price + c.eps))
  let base_allocations := alloc_loop c.quantity_precision c.base_balance base_prices
  let quote_allocations := alloc_loop c.price_precision c.quote_balance quote_prices
  prices.map (fun p =>
    if p ≤ c.initial_price + c.eps then
      { price := round_decimal p c.price_precision
        status := Status.base
        quote_budget := 0
        base_position := dictGet base_allocations p
        last_action := none }
    else
      { price := round_decimal p c.price_precision
        status := Status.quote
        quote_budget := dictGet quote_allocations p
        base_position := 0
        last_action := none })

/-- Engine construction from a (validated) configuration: copy the
configuration fields, build the levels, start with an empty trade history. -/
def mkBot (c : Config) (ratio : ℚ) : Bot :=
  { num_levels := c.num_levels
    lower_price := c.lower_price
    upper_price := c.upper_price
    initial_price := c.initial_price
    base_balance := c.base_balance
    quote_balance := c.quote_balance
    fee_rate := c.fee_rate
    slippage_rate := c.slippage_rate
    price_precision := c.price_precision
    quantity_precision := c.quantity_precision
    eps := c.eps
    levels := build_levels c ratio
    trade_history := [] }

/-! ## Execution (`_execute_buy`, `_execute_sell`, `on_price_tick`) -/

/-- Source `_execute_buy`: skip when the level's quote budget is at most
`eps`; check quote balance sufficiency; compute the trade; require a
non-degenerate resulting quantity; then debit the quote balance, credit the
base balance, flip the level to holding base and append a trade log.  The
updated level is returned alongside the updated engine state (the `levels`
field of the returned `Bot` is untouched; the caller reassembles it). -/
def execute_buy_level (b : Bot) (lv : GridLevel) : Except GridError (Bot × GridLevel) :=
  let quote_amount := lv.quote_budget
  if quote_amount ≤ b.eps then Except.ok (b, lv)
  else if b.quote_balance + b.eps < quote_amount then Except.error GridError.insufficientBalance
  else
    let trade := execute_buy quote_amount lv.price b.fee_rate b.slippage_rate
      b.quantity_precision b.price_precision
    if trade.quantity ≤ b.eps then Except.error GridError.nullTrade
    else Except.ok
      ({ b with
          quote_balance := b.quote_balance - trade.quote_amount
          base_balance := b.base_balance + trade.quantity
          trade_history := b.trade_history ++
            [{ side := Side.buy, level_price := lv.price,
               execution_price := trade.effective_price, quantity := trade.quantity,
               quote_amount := trade.quote_amount, fee_paid := trade.fee_paid }] },
       { lv with
          base_position := trade.quantity
          quote_budget := 0
          status := Status.base
          last_action := some Side.buy })

/-- Source `_execute_sell`, the mirror image of `execute_buy_level`. -/
def execute_sell_level (b : Bot) (lv : GridLevel) : Except GridError (Bot × GridLevel) :=
  let base_amount := lv.base_position
  if base_amount ≤ b.eps then Except.ok (b, lv)
  else if b.base_balance + b.eps < base_amount then Except.error GridError.insufficientBalance
  else
    let trade := execute_sell base_amount lv.price b.fee_rate b.slippage_rate
      b.quantity_precision b.price_precision
    if trade.quote_amount ≤ b.eps then Except.error GridError.nullTrade
    else Except.ok
      ({ b with
          base_balance := b.base_balance - trade.quantity
          quote_balance := b.quote_balance + trade.quote_amount
          trade_history := b.trade_history ++
            [{ side := Side.sell, level_price := lv.price,
               execution_price := trade.effective_price, quantity := trade.quantity,
               quote_amount := trade.quote_amount, fee_paid := trade.fee_paid }] },
       { lv with
          base_position := 0
          quote_budget := trade.quote_amount
          status := Status.quote
          last_action := some Side.sell })

/-- One iteration of the first pass of `on_price_tick`: a level with status
quote whose trigger `current_price ≤ level.price + eps` holds is bought. -/
def buy_step (p : ℚ) (b : Bot) (lv : GridLevel) : Except GridError (Bot × GridLevel) :=
  if lv.status = Status.quote ∧ p ≤ lv.price + b.eps then execute_buy_level b lv
  else Except.ok (b, lv)

/-- One iteration of the second pass of `on_price_tick`: a level with status
base whose trigger `current_price ≥ level.price - eps` holds is sold. -/
def sell_step (p : ℚ) (b : Bot) (lv : GridLevel) : Except GridError (Bot × GridLevel) :=
  if lv.status = Status.base ∧ lv.price - b.eps ≤ p then execute_sell_level b lv
  else Except.ok (b, lv)

/-- A pass over the level list, threading the engine state through the given
step.  On an exception the partially processed list (processed prefix, then
the failing level and the untouched rest) and the partially updated state
are returned, since the Python object keeps all mutations already made. -/
def run_pass (step : Bot → GridLevel → Except GridError (Bot × GridLevel)) :
    Bot → List GridLevel → Except (GridError × Bot × List GridLevel) (Bot × List GridLevel)
  | b, [] => Except.ok (b, [])
  | b, lv :: rest =>
    match step b lv with
    | Except.error e => Except.error (e, b, lv :: rest)
    | Except.ok (b1, lv1) =>
      match run_pass step b1 rest with
      | Except.ok (b2, rest2) => Except.ok (b2, lv1 :: rest2)
      | Except.error (e, b2, rest2) => Except.error (e, b2, lv1 :: rest2)

/-- Source `on_price_tick`: validate the price (positive beyond `eps`), run
the buy pass in ascending storage order, then the sell pass in descending
order (`reversed(self.levels)`), then check both balances are not below
`-eps`.  An error value carries the engine state as mutated so far. -/
def on_price_tick (b : Bot) (p : ℚ) : Except (GridError × Bot) Bot :=
  if p ≤ b.eps then Except.error (GridError.nonPositivePrice, b)
  else
    match run_pass (buy_step p) b b.levels with
    | Except.error (e, b1, lvs) => Except.error (e, { b1 with levels := lvs })
    | Except.ok (b1, lvs1) =>
      match run_pass (sell_step p) b1 lvs1.reverse with
      | Except.error (e, b2, lvsRev) => Except.error (e, { b2 with levels := lvsRev.reverse })
      | Except.ok (b2, lvsRev2) =>
        let b3 := { b2 with levels := lvsRev2.reverse }
        if b3.base_balance < -b3.eps then Except.error (GridError.negativeBalance, b3)
        else if b3.quote_balance < -b3.eps then Except.error (GridError.negativeBalance, b3)
        else Except.ok b3

/-- The variant of `on_price_tick` that runs the descending sell pass first
and the ascending buy pass second, compared against the source order by the
pass-commutation claim. -/
def on_price_tick_sells_first (b : Bot) (p : ℚ) : Except (GridError × Bot) Bot :=
  if p ≤ b.eps then Except.error (GridError.nonPositivePrice, b)
  else
    match run_pass (sell_step p) b b.levels.reverse with
    | Except.error (e, b1, lvsRev) => Except.error (e, { b1 with levels := lvsRev.reverse })
    | Except.ok (b1, lvsRev1) =>
      match run_pass (buy_step p) b1 lvsRev1.reverse with
      | Except.error (e, b2, lvs) => Except.error (e, { b2 with levels := lvs })
      | Except.ok (b2, lvs2) =>
        let b3 := { b2 with levels := lvs2 }
        if b3.base_balance < -b3.eps then Except.error (GridError.negativeBalance, b3)
        else if b3.quote_balance < -b3.eps then Except.error (GridError.negativeBalance, b3)
        else Except.ok b3

/-- Engine states reachable from construction by any sequence of
`on_price_tick` calls.  A call that raises leaves the engine in the
partially mutated state carried by the error, and the caller may keep
going, so both outcomes extend reachability. -/
inductive Reachable (c : Config) (ratio : ℚ) : Bot → Prop
  | init : Reachable c ratio (mkBot c ratio)
  | tick_ok (b : Bot) (p : ℚ) (b' : Bot) :
      Reachable c ratio b → on_price_tick b p = Except.ok b' → Reachable c ratio b'
  | tick_err (b : Bot) (p : ℚ) (e : GridError) (b' : Bot) :
      Reachable c ratio b → on_price_tick b p = Except.error (e, b') → Reachable c ratio b'

deriving instance DecidableEq for Except

/-! ## Concrete instances used by the witnesses and counterexamples -/

/-- A small well-behaved configuration: two levels at 100 and 200, initial
price 150, no fees or slippage. -/
def cfgA : Config :=
  { num_levels := 2, lower_price := 100, upper_price := 200, initial_price := 150
    base_balance := 1, quote_balance := 100, fee_rate := 0, slippage_rate := 0
    price_precision := 2, quantity_precision := 8, eps := 1 / 10 ^ 9 }

/-- The base-seeded level of `mkBot cfgA 2`. -/
def lvA : GridLevel :=
  { price := 100, status := Status.base, quote_budget := 0, base_position := 1
    last_action := none }

/-- The engine after one tick of `mkBot cfgA 2` at price 150. -/
def tbA150 : Bot :=
  match on_price_tick (mkBot cfgA 2) 150 with
  | Except.ok b => b
  | Except.error t => t.2

/-- The engine after one tick of `mkBot cfgA 2` at price 200 (the tick price
lies exactly on the level price, inside the eps band). -/
def tbA200 : Bot :=
  match on_price_tick (mkBot cfgA 2) 200 with
  | Except.ok b => b
  | Except.error t => t.2

/-- The engine after a second tick at price 200. -/
def tbA200b : Bot :=
  match on_price_tick tbA200 200 with
  | Except.ok b => b
  | Except.error t => t.2

/-- The engine after one sells-first tick of `mkBot cfgA 2` at price 200. -/
def tbS200 : Bot :=
  match on_price_tick_sells_first (mkBot cfgA 2) 200 with
  | Except.ok b => b
  | Except.error t => t.2

/-- The engine after one sells-first tick of `mkBot cfgA 2` at price 150. -/
def tbS150 : Bot :=
  match on_price_tick_sells_first (mkBot cfgA 2) 150 with
  | Except.ok b => b
  | Except.error t => t.2

/-- Like `cfgA` but with a base balance of 0.015 and quantity precision 2,
so that the even allocation leaves rounding dust. -/
def cfgC1 : Config :=
  { num_levels := 2, lower_price := 100, upper_price := 200, initial_price := 150
    base_balance := 3 / 200, quote_balance := 1000, fee_rate := 0, slippage_rate := 0
    price_precision := 2, quantity_precision := 2, eps := 1 / 10 ^ 9 }

/-- A three-level ladder with ratio 1.001 and price precision 0: the stored
rounded prices of the first two levels collapse to the same value. -/
def cfgC5 : Config :=
  { num_levels := 3, lower_price := 100, upper_price := 1002001 / 10000
    initial_price := 100, base_balance := 1, quote_balance := 1000
    fee_rate := 0, slippage_rate := 0
    price_precision := 0, quantity_precision := 8, eps := 1 / 10 ^ 9 }

/-- Like `cfgA` but with the initial price equal to the upper bound: no
level is seeded with quote capital. -/
def cfgC6 : Config :=
  { num_levels := 2, lower_price := 100, upper_price := 200, initial_price := 200
    base_balance := 1, quote_balance := 1000, fee_rate := 0, slippage_rate := 0
    price_precision := 2, quantity_precision := 8, eps := 1 / 10 ^ 9 }

/-- Like `cfgA` but with a zero base balance: the base-seeded level gets a
zero allocation. -/
def cfgC7 : Config :=
  { num_levels := 2, lower_price := 100, upper_price := 200, initial_price := 150
    base_balance := 0, quote_balance := 1000, fee_rate := 0, slippage_rate := 0
    price_precision := 2, quantity_precision := 8, eps := 1 / 10 ^ 9 }

/-- The base-seeded level of `mkBot cfgC7 2`: both amounts are zero. -/
def lvC7 : GridLevel :=
  { price := 100, status := Status.base, quote_budget := 0, base_position := 0
    last_action := none }

/-- Like `cfgA` but with a slightly negative base balance, allowed by the
`-eps` tolerance of `validate_non_negative`. -/
def cfgC10 : Config :=
  { num_levels := 2, lower_price := 100, upper_price := 200, initial_price := 150
    base_balance := -(1 / 10 ^ 10), quote_balance := 1000, fee_rate := 0, slippage_rate := 0
    price_precision := 2, quantity_precision := 8, eps := 1 / 10 ^ 9 }

/-- The base-seeded level of `mkBot cfgC10 2`: its position, the capped
negative remainder, is not a multiple of the quantity quantum. -/
def lvC10 : GridLevel :=
  { price := 100, status := Status.base, quote_budget := 0
    base_position := -(1 / 10 ^ 10), last_action := none }

/-- A single-level engine state used by the round-trip claim: one level
holding a quote budget of 10 at price 3, no fees or slippage. -/
def botC3 : Bot :=
  { num_levels := 2, lower_price := 1, upper_price := 10, initial_price := 5
    base_balance := 0, quote_balance := 10, fee_rate := 0, slippage_rate := 0
    price_precision := 2, quantity_precision := 2, eps := 1 / 10 ^ 9
    levels :=
      [{ price := 3, status := Status.quote, quote_budget := 10, base_position := 0,
         last_action := none }]
    trade_history := [] }

/-- The quote-holding level of `botC3`. -/
def lvC3 : GridLevel :=
  { price := 3, status := Status.quote, quote_budget := 10, base_position := 0
    last_action := none }

/-- Result of buying the budget of `lvC3`. -/
def c3buy : Bot × GridLevel :=
  match execute_buy_level botC3 lvC3 with
  | Except.ok r => r
  | Except.error _ => (botC3, lvC3)

/-- Result of selling back the position bought by `c3buy`. -/
def c3sell : Bot × GridLevel :=
  match execute_sell_level c3buy.1 c3buy.2 with
  | Except.ok r => r
  | Except.error _ => c3buy

/-- An engine state whose single quote-seeded level has a budget exceeding
the available quote balance: any tick at or below its price raises. -/
def botC8 : Bot :=
  { num_levels := 2, lower_price := 1, upper_price := 10, initial_price := 5
    base_balance := 0, quote_balance := 0, fee_rate := 0, slippage_rate := 0
    price_precision := 2, quantity_precision := 8, eps := 1 / 10 ^ 9
    levels :=
      [{ price := 100, status := Status.quote, quote_budget := 100, base_position := 0,
         last_action := none }]
    trade_history := [] }

/-! ## Properties of the rounding function -/

theorem pow_ten_pos (p : ℕ) : (0 : ℚ) < 10 ^ p := by positivity

theorem truncToZero_le {x : ℚ} (h : 0 ≤ x) : (truncToZero x : ℚ) ≤ x := by
  rw [truncToZero, if_pos h]; exact_mod_cast Int.floor_le x

theorem lt_truncToZero_add_one {x : ℚ} (h : 0 ≤ x) : x < (truncToZero x : ℚ) + 1 := by
  rw [truncToZero, if_pos h]; exact_mod_cast Int.lt_floor_add_one x

theorem truncToZero_nonneg {x : ℚ} (h : 0 ≤ x) : (0 : ℚ) ≤ (truncToZero x : ℚ) := by
  rw [truncToZero, if_pos h]; exact_mod_cast Int.floor_nonneg.mpr h

theorem le_truncToZero {x : ℚ} (h : x ≤ 0) : x ≤ (truncToZero x : ℚ) := by
  rw [truncToZero]
  split
  · next h0 =>
      have hx0 : x = 0 := le_antisymm h h0
      subst hx0; simp
  · exact Int.le_ceil x

theorem truncToZero_mono {x y : ℚ} (h : x ≤ y) : truncToZero x ≤ truncToZero y := by
  rw [truncToZero, truncToZero]
  rcases le_or_lt 0 x with hx | hx
  · rw [if_pos hx, if_pos (le_trans hx h)]
    exact Int.floor_le_floor h
  · rw [if_neg (not_le.mpr hx)]
    rcases le_or_lt 0 y with hy | hy
    · rw [if_pos hy]
      have hc : ⌈x⌉ ≤ (0 : ℤ) := Int.ceil_le.mpr (by exact_mod_cast hx.le)
      exact le_trans hc (Int.floor_nonneg.mpr hy)
    · rw [if_neg (not_le.mpr hy)]
      exact Int.ceil_le_ceil h

theorem truncToZero_intCast (k : ℤ) : truncToZero (k : ℚ) = k := by
  rw [truncToZero]
  split
  · exact Int.floor_intCast k
  · exact Int.ceil_intCast k

theorem round_decimal_le {x : ℚ} (p : ℕ) (h : 0 ≤ x) : round_decimal x p ≤ x := by
  rw [round_decimal, div_le_iff (pow_ten_pos p)]
  exact truncToZero_le (by positivity)

theorem lt_round_decimal_add {x : ℚ} (p : ℕ) (h : 0 ≤ x) :
    x < round_decimal x p + ((10 : ℚ) ^ p)⁻¹ := by
  have h1 := lt_truncToZero_add_one (x := x * 10 ^ p) (by positivity)
  rw [round_decimal, inv_eq_one_div, div_add_div_same, lt_div_iff (pow_ten_pos p)]
  exact h1

theorem round_decimal_nonneg {x : ℚ} (p : ℕ) (h : 0 ≤ x) : 0 ≤ round_decimal x p := by
  rw [round_decimal]
  exact div_nonneg (truncToZero_nonneg (by positivity)) (pow_ten_pos p).le

theorem le_round_decimal_of_nonpos {x : ℚ} (p : ℕ) (h : x ≤ 0) : x ≤ round_decimal x p := by
  rw [round_decimal, le_div_iff (pow_ten_pos p)]
  exact le_truncToZero (by nlinarith [pow_ten_pos p])

theorem round_decimal_mono {x y : ℚ} (p : ℕ) (h : x ≤ y) :
    round_decimal x p ≤ round_decimal y p := by
  rw [round_decimal, round_decimal]
  have := truncToZero_mono (mul_le_mul_of_nonneg_right h (pow_ten_pos p).le)
  gcongr

theorem round_decimal_int_div (k : ℤ) (p : ℕ) :
    round_decimal ((k : ℚ) / 10 ^ p) p = (k : ℚ) / 10 ^ p := by
  rw [round_decimal, div_mul_cancel₀ _ (pow_ten_pos p).ne', truncToZero_intCast]

theorem round_decimal_exists_int (x : ℚ) (p : ℕ) :
    ∃ k : ℤ, round_decimal x p = (k : ℚ) / 10 ^ p :=
  ⟨truncToZero (x * 10 ^ p), rfl⟩

theorem round_decimal_idem (x : ℚ) (p : ℕ) :
    round_decimal (round_decimal x p) p = round_decimal x p := by
  obtain ⟨k, hk⟩ := round_decimal_exists_int x p
  rw [hk, round_decimal_int_div]

theorem round_decimal_zero (p : ℕ) : round_decimal 0 p = 0 := by
  have : ((0 : ℤ) : ℚ) / 10 ^ p = 0 := by simp
  simpa [this] using round_decimal_int_div 0 p

/-! ## Pass analysis machinery

A successful step of either pass changes the level by a pure function of the
level and the immutable parameters, and changes the engine scalars by a pure
additive delta.  The lemmas below express a whole pass through these per-level
functions. -/

/-- The immutable parameters read by the execution helpers. -/
structure Statics where
  eps : ℚ
  fee_rate : ℚ
  slippage_rate : ℚ
  price_precision : ℕ
  quantity_precision : ℕ
deriving DecidableEq

/-- Projection of the immutable parameters out of an engine state. -/
def statics (b : Bot) : Statics :=
  { eps := b.eps, fee_rate := b.fee_rate, slippage_rate := b.slippage_rate
    price_precision := b.price_precision, quantity_precision := b.quantity_precision }

/-- The change one level execution makes to the engine scalars. -/
structure Delta where
  dbase : ℚ
  dquote : ℚ
  trades : List TradeLog

/-- Apply a scalar change to an engine state. -/
def addDelta (b : Bot) (d : Delta) : Bot :=
  { b with
      base_balance := b.base_balance + d.dbase
      quote_balance := b.quote_balance + d.dquote
      trade_history := b.trade_history ++ d.trades }

/-- Sum of a list of scalar changes, trades concatenated in order. -/
def dsum : List Delta → Delta
  | [] => { dbase := 0, dquote := 0, trades := [] }
  | d :: rest =>
    { dbase := d.dbase + (dsum rest).dbase
      dquote := d.dquote + (dsum rest).dquote
      trades := d.trades ++ (dsum rest).trades }

theorem statics_addDelta (b : Bot) (d : Delta) : statics (addDelta b d) = statics b := rfl

theorem addDelta_levels (b : Bot) (d : Delta) : (addDelta b d).levels = b.levels := rfl

theorem addDelta_dsum_nil (b : Bot) : addDelta b (dsum []) = b := by
  simp [addDelta, dsum]

theorem addDelta_dsum_cons (b : Bot) (d : Delta) (l : List Delta) :
    addDelta b (dsum (d :: l)) = addDelta (addDelta b d) (dsum l) := by
  simp [addDelta, dsum, add_assoc]

/-- Buy activation: the pass trigger of `on_price_tick` together with the
non-skip guard of `_execute_buy`. -/
def buy_fires (p : ℚ) (s : Statics) (lv : GridLevel) : Prop :=
  lv.status = Status.quote ∧ p ≤ lv.price + s.eps ∧ s.eps < lv.quote_budget

instance (p : ℚ) (s : Statics) (lv : GridLevel) : Decidable (buy_fires p s lv) := by
  unfold buy_fires; infer_instance

/-- Sell activation: the pass trigger together with the non-skip guard of
`_execute_sell`. -/
def sell_fires (p : ℚ) (s : Statics) (lv : GridLevel) : Prop :=
  lv.status = Status.base ∧ lv.price - s.eps ≤ p ∧ s.eps < lv.base_position

instance (p : ℚ) (s : Statics) (lv : GridLevel) : Decidable (sell_fires p s lv) := by
  unfold sell_fires; infer_instance

/-- The trade breakdown a firing buy at this level computes. -/
def buyTrade (s : Statics) (lv : GridLevel) : TradeBreakdown :=
  execute_buy lv.quote_budget lv.price s.fee_rate s.slippage_rate
    s.quantity_precision s.price_precision

/-- The trade breakdown a firing sell at this level computes. -/
def sellTrade (s : Statics) (lv : GridLevel) : TradeBreakdown :=
  execute_sell lv.base_position lv.price s.fee_rate s.slippage_rate
    s.quantity_precision s.price_precision

/-- The level after a firing buy. -/
def buyFlip (s : Statics) (lv : GridLevel) : GridLevel :=
  { lv with
      base_position := (buyTrade s lv).quantity
      quote_budget := 0
      status := Status.base
      last_action := some Side.buy }

/-- The level after a firing sell. -/
def sellFlip (s : Statics) (lv : GridLevel) : GridLevel :=
  { lv with
      base_position := 0
      quote_budget := (sellTrade s lv).quote_amount
      status := Status.quote
      last_action := some Side.sell }

/-- The trade record a firing buy appends. -/
def buyLog (s : Statics) (lv : GridLevel) : TradeLog :=
  { side := Side.buy, level_price := lv.price
    execution_price := (buyTrade s lv).effective_price
    quantity := (buyTrade s lv).quantity
    quote_amount := (buyTrade s lv).quote_amount
    fee_paid := (buyTrade s lv).fee_paid }

/-- The trade record a firing sell appends. -/
def sellLog (s : Statics) (lv : GridLevel) : TradeLog :=
  { side := Side.sell, level_price := lv.price
    execution_price := (sellTrade s lv).effective_price
    quantity := (sellTrade s lv).quantity
    quote_amount := (sellTrade s lv).quote_amount
    fee_paid := (sellTrade s lv).fee_paid }

/-- Per-level result of the buy pass, given that the step did not raise. -/
def buyF (p : ℚ) (s : Statics) (lv : GridLevel) : GridLevel :=
  if buy_fires p s lv then buyFlip s lv else lv

/-- Per-level result of the sell pass, given that the step did not raise. -/
def sellF (p : ℚ) (s : Statics) (lv : GridLevel) : GridLevel :=
  if sell_fires p s lv then sellFlip s lv else lv

/-- Per-level scalar delta of the buy pass, given that the step did not raise. -/
def buyD (p : ℚ) (s : Statics) (lv : GridLevel) : Delta :=
  if buy_fires p s lv then
    { dbase := (buyTrade s lv).quantity
      dquote := -(buyTrade s lv).quote_amount
      trades := [buyLog s lv] }
  else { dbase := 0, dquote := 0, trades := [] }

/-- Per-level scalar delta of the sell pass, given that the step did not raise. -/
def sellD (p : ℚ) (s : Statics) (lv : GridLevel) : Delta :=
  if sell_fires p s lv then
    { dbase := -(sellTrade s lv).quantity
      dquote := (sellTrade s lv).quote_amount
      trades := [sellLog s lv] }
  else { dbase := 0, dquote := 0, trades := [] }

theorem buy_step_ok {p : ℚ} {b : Bot} {lv : GridLevel} {b' : Bot} {lv' : GridLevel}
    (h : buy_step p b lv = Except.ok (b', lv')) :
    lv' = buyF p (statics b) lv ∧ b' = addDelta b (buyD p (statics b) lv) := by
  rw [buy_step] at h
  split at h
  · next htrig =>
      simp only [execute_buy_level] at h
      split at h
      · next hskip =>
          simp only [Except.ok.injEq, Prod.mk.injEq] at h
          obtain ⟨rfl, rfl⟩ := h
          have hnf : ¬ buy_fires p (statics b) lv := by
            rw [buy_fires]
            rintro ⟨-, -, hgt⟩
            exact absurd hskip (not_le.mpr hgt)
          simp [buyF, buyD, if_neg hnf, addDelta]
      · next hskip =>
          split at h
          · exact absurd h (by simp)
          · split at h
            · exact absurd h (by simp)
            · simp only [Except.ok.injEq, Prod.mk.injEq] at h
              obtain ⟨rfl, rfl⟩ := h
              have hf : buy_fires p (statics b) lv :=
                ⟨htrig.1, htrig.2, not_le.mp hskip⟩
              refine ⟨by rw [buyF, if_pos hf]; rfl, ?_⟩
              rw [buyD, if_pos hf, addDelta]
              simp [buyTrade, buyLog, statics, sub_eq_add_neg]
  · next htrig =>
      simp only [Except.ok.injEq, Prod.mk.injEq] at h
      obtain ⟨rfl, rfl⟩ := h
      have hnf : ¬ buy_fires p (statics b) lv := by
        rw [buy_fires]
        rintro ⟨h1, h2, -⟩
        exact htrig ⟨h1, h2⟩
      simp [buyF, buyD, if_neg hnf, addDelta]

theorem sell_step_ok {p : ℚ} {b : Bot} {lv : GridLevel} {b' : Bot} {lv' : GridLevel}
    (h : sell_step p b lv = Except.ok (b', lv')) :
    lv' = sellF p (statics b) lv ∧ b' = addDelta b (sellD p (statics b) lv) := by
  rw [sell_step] at h
  split at h
  · next htrig =>
      simp only [execute_sell_level] at h
      split at h
      · next hskip =>
          simp only [Except.ok.injEq, Prod.mk.injEq] at h
          obtain ⟨rfl, rfl⟩ := h
          have hnf : ¬ sell_fires p (statics b) lv := by
            rw [sell_fires]
            rintro ⟨-, -, hgt⟩
            exact absurd hskip (not_le.mpr hgt)
          simp [sellF, sellD, if_neg hnf, addDelta]
      · next hskip =>
          split at h
          · exact absurd h (by simp)
          · split at h
            · exact absurd h (by simp)
            · simp only [Except.ok.injEq, Prod.mk.injEq] at h
              obtain ⟨rfl, rfl⟩ := h
              have hf : sell_fires p (statics b) lv :=
                ⟨htrig.1, htrig.2, not_le.mp hskip⟩
              refine ⟨by rw [sellF, if_pos hf]; rfl, ?_⟩
              rw [sellD, if_pos hf, addDelta]
              simp [sellTrade, sellLog, statics, sub_eq_add_neg]
  · next htrig =>
      simp only [Except.ok.injEq, Prod.mk.injEq] at h
      obtain ⟨rfl, rfl⟩ := h
      have hnf : ¬ sell_fires p (statics b) lv := by
        rw [sell_fires]
        rintro ⟨h1, h2, -⟩
        exact htrig ⟨h1, h2⟩
      simp [sellF, sellD, if_neg hnf, addDelta]

/-- A successful pass maps the levels by the per-level function and adds the
summed per-level deltas, provided every successful step does so for engine
states sharing the pass's immutable parameters. -/
theorem run_pass_ok_map
    (step : Bot → GridLevel → Except GridError (Bot × GridLevel))
    (F : GridLevel → GridLevel) (D : GridLevel → Delta) (s₀ : Statics)
    (hstep : ∀ b lv b' lv', statics b = s₀ → step b lv = Except.ok (b', lv') →
      lv' = F lv ∧ b' = addDelta b (D lv)) :
    ∀ (lvs : List GridLevel) (b b' : Bot) (lvs' : List GridLevel), statics b = s₀ →
      run_pass step b lvs = Except.ok (b', lvs') →
      lvs' = lvs.map F ∧ b' = addDelta b (dsum (lvs.map D))
  | [], b, b', lvs', hs, h => by
      simp only [run_pass, Except.ok.injEq, Prod.mk.injEq] at h
      obtain ⟨rfl, rfl⟩ := h
      simp [addDelta_dsum_nil]
  | lv :: rest, b, b', lvs', hs, h => by
      rw [run_pass] at h
      cases hstp : step b lv with
      | error e => rw [hstp] at h; exact absurd h (by simp)
      | ok bl =>
          obtain ⟨b1, lv1⟩ := bl
          rw [hstp] at h
          dsimp only at h
          obtain ⟨hlv1, hb1⟩ := hstep b lv b1 lv1 hs hstp
          cases hrest : run_pass step b1 rest with
          | error t => rw [hrest] at h; exact absurd h (by simp)
          | ok br =>
              obtain ⟨b2, rest2⟩ := br
              rw [hrest] at h
              simp only [Except.ok.injEq, Prod.mk.injEq] at h
              obtain ⟨rfl, rfl⟩ := h
              have hs1 : statics b1 = s₀ := by rw [hb1, statics_addDelta, hs]
              obtain ⟨hr1, hr2⟩ := run_pass_ok_map step F D s₀ hstep rest b1 b2 rest2 hs1 hrest
              refine ⟨by rw [hlv1, hr1, List.map_cons], ?_⟩
              rw [hr2, hb1, List.map_cons, addDelta_dsum_cons]

/-- A failing pass decomposes as a successful run over a prefix, the failing
level (left unchanged, with the error raised from the committed state), and
an untouched suffix. -/
theorem run_pass_error_split
    (step : Bot → GridLevel → Except GridError (Bot × GridLevel)) :
    ∀ (lvs : List GridLevel) (b : Bot) (e : GridError) (b' : Bot) (lvs' : List GridLevel),
      run_pass step b lvs = Except.error (e, b', lvs') →
      ∃ done done' lv rest, lvs = done ++ lv :: rest ∧ lvs' = done' ++ lv :: rest ∧
        run_pass step b done = Except.ok (b', done') ∧ step b' lv = Except.error e
  | [], b, e, b', lvs', h => by
      exact absurd h (by simp [run_pass])
  | lv0 :: rest0, b, e, b', lvs', h => by
      rw [run_pass] at h
      cases hstp : step b lv0 with
      | error e0 =>
          rw [hstp] at h
          simp only [Except.error.injEq, Prod.mk.injEq] at h
          obtain ⟨rfl, rfl, rfl⟩ := h
          exact ⟨[], [], lv0, rest0, rfl, rfl, by rw [run_pass], hstp⟩
      | ok bl =>
          obtain ⟨b1, lv1⟩ := bl
          rw [hstp] at h
          dsimp only at h
          cases hrest : run_pass step b1 rest0 with
          | ok br => rw [hrest] at h; exact absurd h (by simp)
          | error t =>
              obtain ⟨e2, b2, rest2⟩ := t
              rw [hrest] at h
              simp only [Except.error.injEq, Prod.mk.injEq] at h
              obtain ⟨rfl, rfl, rfl⟩ := h
              obtain ⟨done, done', lv, rest, hr1, hr2, hr3, hr4⟩ :=
                run_pass_error_split step rest0 b1 e2 b2 rest2 hrest
              refine ⟨lv0 :: done, lv1 :: done', lv, rest, by rw [hr1]; rfl,
                by rw [hr2]; rfl, ?_, hr4⟩
              rw [run_pass, hstp]
              dsimp only
              rw [hr3]

/-- A pass over levels on which the step is inert returns the state and the
levels unchanged. -/
theorem run_pass_id
    (step : Bot → GridLevel → Except GridError (Bot × GridLevel)) :
    ∀ (lvs : List GridLevel) (b : Bot), (∀ lv ∈ lvs, step b lv = Except.ok (b, lv)) →
      run_pass step b lvs = Except.ok (b, lvs)
  | [], b, _ => by rw [run_pass]
  | lv :: rest, b, hall => by
      rw [run_pass, hall lv (List.mem_cons_self lv rest)]
      dsimp only
      rw [run_pass_id step rest b (fun x hx => hall x (List.mem_cons_of_mem lv hx))]

/-! ## Tick inversion -/

/-- Inversion of a successful `on_price_tick` into its two passes and the
final balance checks. -/
theorem tick_ok_inv {b : Bot} {p : ℚ} {b' : Bot} (h : on_price_tick b p = Except.ok b') :
    b.eps < p ∧ ∃ b1 lvsB b2 lvsS,
      run_pass (buy_step p) b b.levels = Except.ok (b1, lvsB) ∧
      run_pass (sell_step p) b1 lvsB.reverse = Except.ok (b2, lvsS) ∧
      b' = { b2 with levels := lvsS.reverse } ∧
      ¬ b2.base_balance < -b2.eps ∧ ¬ b2.quote_balance < -b2.eps := by
  rw [on_price_tick] at h
  split at h
  · exact absurd h (by simp)
  · next hp =>
      refine ⟨not_le.mp hp, ?_⟩
      cases hbuy : run_pass (buy_step p) b b.levels with
      | error t =>
          obtain ⟨e1, bb, ll⟩ := t
          rw [hbuy] at h
          exact absurd h (by simp)
      | ok r =>
          obtain ⟨b1, lvsB⟩ := r
          rw [hbuy] at h
          dsimp only at h
          cases hsell : run_pass (sell_step p) b1 lvsB.reverse with
          | error t =>
              obtain ⟨e1, bb, ll⟩ := t
              rw [hsell] at h
              exact absurd h (by simp)
          | ok r2 =>
              obtain ⟨b2, lvsS⟩ := r2
              rw [hsell] at h
              dsimp only at h
              split at h
              · exact absurd h (by simp)
              · split at h
                · exact absurd h (by simp)
                · next h1 h2 =>
                    cases h
                    exact ⟨b1, lvsB, b2, lvsS, rfl, hsell, rfl, h1, h2⟩

/-- Inversion of a failing `on_price_tick` into its four possible sources:
non-positive price, an exception inside the buy pass, an exception inside
the sell pass, or the final negative-balance check. -/
theorem tick_err_inv {b : Bot} {p : ℚ} {e : GridError} {b' : Bot}
    (h : on_price_tick b p = Except.error (e, b')) :
    (e = GridError.nonPositivePrice ∧ b' = b ∧ p ≤ b.eps) ∨
    (b.eps < p ∧ ∃ b1 lvs, run_pass (buy_step p) b b.levels = Except.error (e, b1, lvs) ∧
      b' = { b1 with levels := lvs }) ∨
    (b.eps < p ∧ ∃ b1 lvsB b2 lvsS,
      run_pass (buy_step p) b b.levels = Except.ok (b1, lvsB) ∧
      run_pass (sell_step p) b1 lvsB.reverse = Except.error (e, b2, lvsS) ∧
      b' = { b2 with levels := lvsS.reverse }) ∨
    (b.eps < p ∧ e = GridError.negativeBalance ∧ ∃ b1 lvsB b2 lvsS,
      run_pass (buy_step p) b b.levels = Except.ok (b1, lvsB) ∧
      run_pass (sell_step p) b1 lvsB.reverse = Except.ok (b2, lvsS) ∧
      b' = { b2 with levels := lvsS.reverse }) := by
  rw [on_price_tick] at h
  split at h
  · next hp =>
      simp only [Except.error.injEq, Prod.mk.injEq] at h
      exact Or.inl ⟨h.1.symm, h.2.symm, hp⟩
  · next hp =>
      cases hbuy : run_pass (buy_step p) b b.levels with
      | error t =>
          obtain ⟨e1, bb, ll⟩ := t
          rw [hbuy] at h
          simp only [Except.error.injEq, Prod.mk.injEq] at h
          obtain ⟨rfl, rfl⟩ := h
          exact Or.inr (Or.inl ⟨not_le.mp hp, bb, ll, rfl, rfl⟩)
      | ok r =>
          obtain ⟨b1, lvsB⟩ := r
          rw [hbuy] at h
          dsimp only at h
          cases hsell : run_pass (sell_step p) b1 lvsB.reverse with
          | error t =>
              obtain ⟨e1, bb, ll⟩ := t
              rw [hsell] at h
              simp only [Except.error.injEq, Prod.mk.injEq] at h
              obtain ⟨rfl, rfl⟩ := h
              exact Or.inr (Or.inr (Or.inl ⟨not_le.mp hp, b1, lvsB, bb, ll, rfl, hsell, rfl⟩))
          | ok r2 =>
              obtain ⟨b2, lvsS⟩ := r2
              rw [hsell] at h
              dsimp only at h
              split at h
              · simp only [Except.error.injEq, Prod.mk.injEq] at h
                obtain ⟨rfl, rfl⟩ := h
                exact Or.inr (Or.inr (Or.inr
                  ⟨not_le.mp hp, rfl, b1, lvsB, b2, lvsS, rfl, hsell, rfl⟩))
              · split at h
                · simp only [Except.error.injEq, Prod.mk.injEq] at h
                  obtain ⟨rfl, rfl⟩ := h
                  exact Or.inr (Or.inr (Or.inr
                    ⟨not_le.mp hp, rfl, b1, lvsB, b2, lvsS, rfl, hsell, rfl⟩))
                · exact absurd h (by simp)

/-! ## Preservation of the immutable parameters -/

theorem statics_levels_set (b : Bot) (l : List GridLevel) :
    statics { b with levels := l } = statics b := rfl

theorem buy_step_statics {p : ℚ} {b : Bot} {lv : GridLevel} {b' : Bot} {lv' : GridLevel}
    (h : buy_step p b lv = Except.ok (b', lv')) : statics b' = statics b := by
  rw [(buy_step_ok h).2, statics_addDelta]

theorem sell_step_statics {p : ℚ} {b : Bot} {lv : GridLevel} {b' : Bot} {lv' : GridLevel}
    (h : sell_step p b lv = Except.ok (b', lv')) : statics b' = statics b := by
  rw [(sell_step_ok h).2, statics_addDelta]

theorem run_pass_statics_ok
    (step : Bot → GridLevel → Except GridError (Bot × GridLevel))
    (hstep : ∀ b lv b' lv', step b lv = Except.ok (b', lv') → statics b' = statics b) :
    ∀ (lvs : List GridLevel) (b b' : Bot) (lvs' : List GridLevel),
      run_pass step b lvs = Except.ok (b', lvs') → statics b' = statics b
  | [], b, b', lvs', h => by
      simp only [run_pass, Except.ok.injEq, Prod.mk.injEq] at h
      rw [← h.1]
  | lv :: rest, b, b', lvs', h => by
      rw [run_pass] at h
      cases hstp : step b lv with
      | error e => rw [hstp] at h; exact absurd h (by simp)
      | ok bl =>
          obtain ⟨b1, lv1⟩ := bl
          rw [hstp] at h
          dsimp only at h
          cases hrest : run_pass step b1 rest with
          | error t => rw [hrest] at h; exact absurd h (by simp)
          | ok br =>
              obtain ⟨b2, rest2⟩ := br
              rw [hrest] at h
              simp only [Except.ok.injEq, Prod.mk.injEq] at h
              rw [← h.1]
              rw [run_pass_statics_ok step hstep rest b1 b2 rest2 hrest, hstep b lv b1 lv1 hstp]

theorem run_pass_statics_error
    (step : Bot → GridLevel → Except GridError (Bot × GridLevel))
    (hstep : ∀ b lv b' lv', step b lv = Except.ok (b', lv') → statics b' = statics b)
    {lvs : List GridLevel} {b : Bot} {e : GridError} {b' : Bot} {lvs' : List GridLevel}
    (h : run_pass step b lvs = Except.error (e, b', lvs')) : statics b' = statics b := by
  obtain ⟨done, done', lv, rest, -, -, hok, -⟩ := run_pass_error_split step lvs b e b' lvs' h
  exact run_pass_statics_ok step hstep done b b' done' hok

/-- Both outcomes of a tick leave the immutable parameters unchanged. -/
theorem tick_statics {b : Bot} {p : ℚ} :
    (∀ b', on_price_tick b p = Except.ok b' → statics b' = statics b) ∧
    (∀ e b', on_price_tick b p = Except.error (e, b') → statics b' = statics b) := by
  constructor
  · intro b' h
    obtain ⟨-, b1, lvsB, b2, lvsS, hbuy, hsell, rfl, -, -⟩ := tick_ok_inv h
    rw [statics_levels_set,
      run_pass_statics_ok _ (fun _ _ _ _ => sell_step_statics) _ _ _ _ hsell,
      run_pass_statics_ok _ (fun _ _ _ _ => buy_step_statics) _ _ _ _ hbuy]
  · intro e b' h
    rcases tick_err_inv h with ⟨-, rfl, -⟩ | ⟨-, b1, lvs, herr, rfl⟩ |
      ⟨-, b1, lvsB, b2, lvsS, hbuy, herr, rfl⟩ | ⟨-, -, b1, lvsB, b2, lvsS, hbuy, hsell, rfl⟩
    · rfl
    · rw [statics_levels_set,
        run_pass_statics_error _ (fun _ _ _ _ => buy_step_statics) herr]
    · rw [statics_levels_set,
        run_pass_statics_error _ (fun _ _ _ _ => sell_step_statics) herr,
        run_pass_statics_ok _ (fun _ _ _ _ => buy_step_statics) _ _ _ _ hbuy]
    · rw [statics_levels_set,
        run_pass_statics_ok _ (fun _ _ _ _ => sell_step_statics) _ _ _ _ hsell,
        run_pass_statics_ok _ (fun _ _ _ _ => buy_step_statics) _ _ _ _ hbuy]

/-! ## Properties of the generated price ladder -/

theorem gen_prices_length (price ratio : ℚ) : ∀ n : ℕ, (gen_prices price ratio n).length = n
  | 0 => by rw [gen_prices]; rfl
  | n + 1 => by rw [gen_prices, List.length_cons, gen_prices_length (price * ratio) ratio n]

theorem gen_prices_map_pow (ratio : ℚ) :
    ∀ (n : ℕ) (price : ℚ),
      gen_prices price ratio n = (List.range n).map (fun k => price * ratio ^ k)
  | 0, price => by rw [gen_prices]; rfl
  | n + 1, price => by
      rw [gen_prices, gen_prices_map_pow ratio n (price * ratio), List.range_succ_eq_map,
        List.map_cons, List.map_map]
      refine congrArg₂ _ (by ring) (List.map_congr_left fun k _ => ?_)
      simp only [Function.comp_apply]
      rw [pow_succ]
      ring

theorem gen_prices_chain_mul (ratio : ℚ) :
    ∀ (n : ℕ) (price : ℚ),
      List.Chain' (fun a b => b = a * ratio) (gen_prices price ratio n)
  | 0, price => by rw [gen_prices]; exact List.chain'_nil
  | 1, price => by rw [gen_prices, gen_prices]; exact List.chain'_singleton price
  | n + 2, price => by
      rw [gen_prices, gen_prices, List.chain'_cons]
      exact ⟨rfl, by rw [← gen_prices]; exact gen_prices_chain_mul ratio (n + 1) (price * ratio)⟩

theorem gen_prices_chain_lt {ratio : ℚ} (hr : 1 < ratio) :
    ∀ (n : ℕ) (price : ℚ), 0 < price → List.Chain' (· < ·) (gen_prices price ratio n)
  | 0, price, _ => by rw [gen_prices]; exact List.chain'_nil
  | 1, price, _ => by rw [gen_prices, gen_prices]; exact List.chain'_singleton price
  | n + 2, price, hp => by
      rw [gen_prices, gen_prices, List.chain'_cons]
      refine ⟨by nlinarith, ?_⟩
      rw [← gen_prices]
      exact gen_prices_chain_lt hr (n + 1) (price * ratio)
        (mul_pos hp (lt_trans zero_lt_one hr))

theorem gen_prices_nodup {ratio : ℚ} (hr : 1 < ratio) (n : ℕ) {price : ℚ}
    (hp : 0 < price) : (gen_prices price ratio n).Nodup :=
  (List.chain'_iff_pairwise.mp (gen_prices_chain_lt hr n price hp)).imp ne_of_lt

/-! ## Properties of the allocation loop -/

/-- The total amount handed out by the allocation loop. -/
def allocSum (prec : ℕ) (remaining : ℚ) (ps : List ℚ) : ℚ :=
  ((alloc_loop prec remaining ps).map Prod.snd).sum

theorem alloc_loop_keys (prec : ℕ) :
    ∀ (remaining : ℚ) (ps : List ℚ), (alloc_loop prec remaining ps).map Prod.fst = ps
  | _, [] => by rw [alloc_loop]; rfl
  | remaining, p :: rest => by
      rw [alloc_loop, List.map_cons, alloc_loop_keys prec _ rest]

theorem allocSum_nil (prec : ℕ) (remaining : ℚ) : allocSum prec remaining [] = 0 := by
  rw [allocSum, alloc_loop]; rfl

theorem allocSum_cons (prec : ℕ) (remaining : ℚ) (p : ℚ) (rest : List ℚ) :
    allocSum prec remaining (p :: rest) =
      min (round_decimal (remaining / ((rest.length + 1 : ℕ) : ℚ)) prec) remaining +
      allocSum prec
        (remaining - min (round_decimal (remaining / ((rest.length + 1 : ℕ) : ℚ)) prec) remaining)
        rest := by
  rw [allocSum, alloc_loop]
  rfl

/-- After allocating over a non-empty list, the unallocated remainder is
non-negative and strictly below one rounding unit. -/
theorem alloc_remaining_bounds (prec : ℕ) :
    ∀ (ps : List ℚ) (remaining : ℚ), ps ≠ [] →
      0 ≤ remaining - allocSum prec remaining ps ∧
      remaining - allocSum prec remaining ps < ((10 : ℚ) ^ prec)⁻¹
  | [], _, hne => absurd rfl hne
  | [p], remaining, _ => by
      rw [allocSum_cons, allocSum_nil]
      simp only [List.length_nil, Nat.zero_add, Nat.cast_one, div_one, add_zero]
      rcases le_or_lt 0 remaining with h0 | h0
      · have h1 := round_decimal_le prec h0
        rw [min_eq_left h1]
        constructor
        · linarith
        · have h2 := lt_round_decimal_add prec h0
          linarith
      · have h1 := le_round_decimal_of_nonpos prec h0.le
        rw [min_eq_right h1]
        constructor
        · linarith
        · have : (0 : ℚ) < ((10 : ℚ) ^ prec)⁻¹ := by positivity
          linarith
  | p :: q :: rest, remaining, _ => by
      rw [allocSum_cons]
      have ih := alloc_remaining_bounds prec (q :: rest)
        (remaining -
          min (round_decimal (remaining / (((q :: rest).length + 1 : ℕ) : ℚ)) prec) remaining)
        (by simp)
      constructor
      · have := ih.1; linarith
      · have := ih.2; linarith

/-- With a non-negative balance, every allocation the loop hands out is
non-negative and is a fixed point of the rounding. -/
theorem alloc_loop_vals (prec : ℕ) :
    ∀ (ps : List ℚ) (remaining : ℚ), 0 ≤ remaining →
      ∀ pa ∈ alloc_loop prec remaining ps,
        round_decimal pa.2 prec = pa.2 ∧ 0 ≤ pa.2
  | [], _, _, pa, hpa => by rw [alloc_loop] at hpa; exact absurd hpa (List.not_mem_nil pa)
  | p :: rest, remaining, h0, pa, hpa => by
      rw [alloc_loop] at hpa
      have hq : (0 : ℚ) ≤ remaining / ((rest.length + 1 : ℕ) : ℚ) := by positivity
      have hle : remaining / ((rest.length + 1 : ℕ) : ℚ) ≤ remaining :=
        div_le_self h0 (by exact_mod_cast Nat.one_le_iff_ne_zero.mpr (Nat.succ_ne_zero _))
      have hmin :
          min (round_decimal (remaining / ((rest.length + 1 : ℕ) : ℚ)) prec) remaining =
            round_decimal (remaining / ((rest.length + 1 : ℕ) : ℚ)) prec :=
        min_eq_left (le_trans (round_decimal_le prec hq) hle)
      rcases List.mem_cons.mp hpa with h | h
      · subst h
        dsimp only
        rw [hmin]
        refine ⟨round_decimal_idem _ _, round_decimal_nonneg prec hq⟩
      · have hrem : 0 ≤ remaining -
            min (round_decimal (remaining / ((rest.length + 1 : ℕ) : ℚ)) prec) remaining := by
          rw [hmin]
          have := round_decimal_le prec hq
          linarith
        exact alloc_loop_vals prec rest _ hrem pa h

/-! ## Properties of the allocation dictionary -/

theorem lookupQ_append_of_none {xs : List (ℚ × ℚ)} {k : ℚ} (ys : List (ℚ × ℚ))
    (h : lookupQ xs k = none) : lookupQ (xs ++ ys) k = lookupQ ys k := by
  induction xs with
  | nil => rfl
  | cons a rest ih =>
      obtain ⟨ka, va⟩ := a
      rw [lookupQ] at h
      rw [List.cons_append, lookupQ]
      split at h
      · exact absurd h (by simp)
      · next hne => rw [if_neg hne]; exact ih h

theorem lookupQ_append_of_some {xs : List (ℚ × ℚ)} {k : ℚ} {v : ℚ} (ys : List (ℚ × ℚ))
    (h : lookupQ xs k = some v) : lookupQ (xs ++ ys) k = some v := by
  induction xs with
  | nil => exact absurd h (by rw [lookupQ]; simp)
  | cons a rest ih =>
      obtain ⟨ka, va⟩ := a
      rw [lookupQ] at h
      rw [List.cons_append, lookupQ]
      split at h
      · next heq => rw [if_pos heq]; exact h
      · next hne => rw [if_neg hne]; exact ih h

theorem lookupQ_eq_none {l : List (ℚ × ℚ)} {k : ℚ} (h : k ∉ l.map Prod.fst) :
    lookupQ l k = none := by
  induction l with
  | nil => rfl
  | cons a rest ih =>
      obtain ⟨ka, va⟩ := a
      rw [List.map_cons] at h
      have hne : k ≠ ka := fun hk => h (by rw [hk]; exact List.mem_cons_self ka _)
      rw [lookupQ, if_neg hne, ih (fun hk => h (List.mem_cons_of_mem ka hk))]

theorem dictGet_cons_self {k v : ℚ} {rest : List (ℚ × ℚ)} (hk : k ∉ rest.map Prod.fst) :
    dictGet ((k, v) :: rest) k = v := by
  rw [dictGet, List.reverse_cons]
  have hnone : lookupQ rest.reverse k = none := by
    refine lookupQ_eq_none ?_
    rw [List.map_reverse, List.mem_reverse]
    exact hk
  rw [lookupQ_append_of_none _ hnone, lookupQ, if_pos rfl]
  rfl

theorem dictGet_cons_ne {k' v k : ℚ} {rest : List (ℚ × ℚ)} (hne : k ≠ k') :
    dictGet ((k', v) :: rest) k = dictGet rest k := by
  rw [dictGet, dictGet, List.reverse_cons]
  cases hl : lookupQ rest.reverse k with
  | none => rw [lookupQ_append_of_none _ hl, lookupQ, if_neg hne]; rfl
  | some w => rw [lookupQ_append_of_some _ hl]

/-- Values returned by the dictionary lookup: either a stored allocation or
the default zero. -/
theorem dictGet_mem_or_zero (l : List (ℚ × ℚ)) (k : ℚ) :
    dictGet l k ∈ l.map Prod.snd ∨ dictGet l k = 0 := by
  induction l with
  | nil => exact Or.inr rfl
  | cons a rest ih =>
      obtain ⟨ka, va⟩ := a
      rcases eq_or_ne k ka with rfl | hne
      · by_cases hmem : k ∈ rest.map Prod.fst
        · cases hlook : lookupQ rest.reverse k with
          | none =>
              rw [dictGet, List.reverse_cons, lookupQ_append_of_none _ hlook, lookupQ,
                if_pos rfl]
              exact Or.inl (List.mem_cons_self va _)
          | some w =>
              have hw : dictGet rest k = w := by rw [dictGet, hlook]; rfl
              rw [dictGet, List.reverse_cons, lookupQ_append_of_some _ hlook]
              rcases ih with h | h
              · rw [hw] at h
                exact Or.inl (List.mem_cons_of_mem va h)
              · rw [hw] at h
                exact Or.inr h
        · rw [dictGet_cons_self hmem]
          exact Or.inl (List.mem_cons_self va _)
      · rw [dictGet_cons_ne hne]
        rcases ih with h | h
        · exact Or.inl (List.mem_cons_of_mem va h)
        · exact Or.inr h

/-- Over distinct keys, looking every key back up returns exactly the summed
allocations. -/
theorem sum_dictGet_alloc (prec : ℕ) :
    ∀ (ps : List ℚ) (remaining : ℚ), ps.Nodup →
      (ps.map (dictGet (alloc_loop prec remaining ps))).sum = allocSum prec remaining ps
  | [], remaining, _ => by rw [alloc_loop, allocSum_nil]; rfl
  | p :: rest, remaining, hnd => by
      rw [alloc_loop, List.map_cons, List.sum_cons]
      have hkeys : (alloc_loop prec
          (remaining -
            min (round_decimal (remaining / ((rest.length + 1 : ℕ) : ℚ)) prec) remaining)
          rest).map Prod.fst = rest := alloc_loop_keys prec _ rest
      have hself : dictGet ((p,
          min (round_decimal (remaining / ((rest.length + 1 : ℕ) : ℚ)) prec) remaining) ::
          alloc_loop prec
            (remaining -
              min (round_decimal (remaining / ((rest.length + 1 : ℕ) : ℚ)) prec) remaining)
            rest) p =
          min (round_decimal (remaining / ((rest.length + 1 : ℕ) : ℚ)) prec) remaining := by
        refine dictGet_cons_self ?_
        rw [hkeys]
        exact (List.nodup_cons.mp hnd).1
      rw [hself]
      have hL : (rest.map (dictGet ((p,
          min (round_decimal (remaining / ((rest.length + 1 : ℕ) : ℚ)) prec) remaining) ::
          alloc_loop prec
            (remaining -
              min (round_decimal (remaining / ((rest.length + 1 : ℕ) : ℚ)) prec) remaining)
            rest))).sum =
          (rest.map (dictGet (alloc_loop prec
            (remaining -
              min (round_decimal (remaining / ((rest.length + 1 : ℕ) : ℚ)) prec) remaining)
            rest))).sum := by
        refine congrArg List.sum (List.map_congr_left fun q hq => ?_)
        have hqp : q ≠ p := by
          rintro rfl
          exact (List.nodup_cons.mp hnd).1 hq
        exact dictGet_cons_ne hqp
      rw [hL, sum_dictGet_alloc prec rest _ (List.nodup_cons.mp hnd).2, allocSum_cons]

/-! ## Holdings sums -/

/-- Contribution of one level to the base-asset holdings. -/
def level_base (lv : GridLevel) : ℚ :=
  if lv.status = Status.base then lv.base_position else 0

/-- Contribution of one level to the reserved quote budgets. -/
def level_quote (lv : GridLevel) : ℚ :=
  if lv.status = Status.quote then lv.quote_budget else 0

/-- Sum of `base_position` over the levels whose status is holding base. -/
def base_holdings (lvs : List GridLevel) : ℚ := (lvs.map level_base).sum

/-- Sum of `quote_budget` over the levels whose status is holding quote. -/
def quote_holdings (lvs : List GridLevel) : ℚ := (lvs.map level_quote).sum

theorem sum_map_ite_filter (l : List ℚ) (P : ℚ → Prop) [DecidablePred P] (f : ℚ → ℚ) :
    (l.map (fun x => if P x then f x else 0)).sum = ((l.filter (fun x => P x)).map f).sum := by
  induction l with
  | nil => rfl
  | cons a rest ih =>
      by_cases h : P a
      · rw [List.map_cons, List.sum_cons, if_pos h, List.filter_cons_of_pos (by simpa using h),
          List.map_cons, List.sum_cons, ih]
      · rw [List.map_cons, List.sum_cons, if_neg h, List.filter_cons_of_neg (by simpa using h),
          ih, zero_add]

/-! ## Structure of the constructed levels -/

theorem mkBot_levels (c : Config) (ratio : ℚ) : (mkBot c ratio).levels = build_levels c ratio :=
  rfl

theorem build_levels_map_price (c : Config) (ratio : ℚ) :
    (build_levels c ratio).map GridLevel.price =
      (gen_prices c.lower_price ratio c.num_levels).map
        (fun p => round_decimal p c.price_precision) := by
  rw [build_levels]
  rw [List.map_map]
  refine List.map_congr_left fun p _ => ?_
  simp only [Function.comp_apply]
  by_cases h : p ≤ c.initial_price + c.eps
  · rw [if_pos h]
  · rw [if_neg h]

theorem base_holdings_build (c : Config) (ratio : ℚ)
    (hnd : ((gen_prices c.lower_price ratio c.num_levels).filter
      (fun p => p ≤ c.initial_price + c.eps)).Nodup) :
    base_holdings (build_levels c ratio) =
      allocSum c.quantity_precision c.base_balance
        ((gen_prices c.lower_price ratio c.num_levels).filter
          (fun p => p ≤ c.initial_price + c.eps)) := by
  rw [base_holdings, build_levels]
  rw [List.map_map]
  have hpoint : ∀ p : ℚ,
      (level_base ∘ fun p =>
        if p ≤ c.initial_price + c.eps then
          ({ price := round_decimal p c.price_precision, status := Status.base,
             quote_budget := 0,
             base_position := dictGet (alloc_loop c.quantity_precision c.base_balance
               ((gen_prices c.lower_price ratio c.num_levels).filter
                 (fun p => p ≤ c.initial_price + c.eps))) p,
             last_action := none } : GridLevel)
        else
          { price := round_decimal p c.price_precision, status := Status.quote,
            quote_budget := dictGet (alloc_loop c.price_precision c.quote_balance
              ((gen_prices c.lower_price ratio c.num_levels).filter
                (fun p => ¬ (p ≤ c.initial_price + c.eps)))) p,
            base_position := 0,
            last_action := none }) p =
      if p ≤ c.initial_price + c.eps then
        dictGet (alloc_loop c.quantity_precision c.base_balance
          ((gen_prices c.lower_price ratio c.num_levels).filter
            (fun p => p ≤ c.initial_price + c.eps))) p
      else 0 := by
    intro p
    simp only [Function.comp_apply]
    by_cases h : p ≤ c.initial_price + c.eps
    · rw [if_pos h, if_pos h]
      simp [level_base]
    · rw [if_neg h, if_neg h]
      simp [level_base]
  rw [List.map_congr_left fun p _ => hpoint p,
    sum_map_ite_filter _ (fun p => p ≤ c.initial_price + c.eps) _,
    sum_dictGet_alloc _ _ _ hnd]

theorem quote_holdings_build (c : Config) (ratio : ℚ)
    (hnd : ((gen_prices c.lower_price ratio c.num_levels).filter
      (fun p => ¬ (p ≤ c.initial_price + c.eps))).Nodup) :
    quote_holdings (build_levels c ratio) =
      allocSum c.price_precision c.quote_balance
        ((gen_prices c.lower_price ratio c.num_levels).filter
          (fun p => ¬ (p ≤ c.initial_price + c.eps))) := by
  rw [quote_holdings, build_levels]
  rw [List.map_map]
  have hpoint : ∀ p : ℚ,
      (level_quote ∘ fun p =>
        if p ≤ c.initial_price + c.eps then
          ({ price := round_decimal p c.price_precision, status := Status.base,
             quote_budget := 0,
             base_position := dictGet (alloc_loop c.quantity_precision c.base_balance
               ((gen_prices c.lower_price ratio c.num_levels).filter
                 (fun p => p ≤ c.initial_price + c.eps))) p,
             last_action := none } : GridLevel)
        else
          { price := round_decimal p c.price_precision, status := Status.quote,
            quote_budget := dictGet (alloc_loop c.price_precision c.quote_balance
              ((gen_prices c.lower_price ratio c.num_levels).filter
                (fun p => ¬ (p ≤ c.initial_price + c.eps)))) p,
            base_position := 0,
            last_action := none }) p =
      if ¬ (p ≤ c.initial_price + c.eps) then
        dictGet (alloc_loop c.price_precision c.quote_balance
          ((gen_prices c.lower_price ratio c.num_levels).filter
            (fun p => ¬ (p ≤ c.initial_price + c.eps)))) p
      else 0 := by
    intro p
    simp only [Function.comp_apply]
    by_cases h : p ≤ c.initial_price + c.eps
    · rw [if_pos h, if_neg (not_not_intro h)]
      simp [level_quote]
    · rw [if_neg h, if_pos h]
      simp [level_quote]
  rw [List.map_congr_left fun p _ => hpoint p,
    sum_map_ite_filter _ (fun p => ¬ (p ≤ c.initial_price + c.eps)) _,
    sum_dictGet_alloc _ _ _ hnd]

/-- At construction, each level holds at most one of the two assets: the
field not matching the status is zero. -/
theorem build_levels_off (c : Config) (ratio : ℚ) :
    ∀ lv ∈ build_levels c ratio,
      (lv.status = Status.base → lv.quote_budget = 0) ∧
      (lv.status = Status.quote → lv.base_position = 0) := by
  intro lv hlv
  rw [build_levels] at hlv
  obtain ⟨p, -, hp⟩ := List.mem_map.mp hlv
  by_cases h : p ≤ c.initial_price + c.eps
  · rw [if_pos h] at hp
    rw [← hp]
    exact ⟨fun _ => rfl, fun hst => absurd hst.symm (by simp)⟩
  · rw [if_neg h] at hp
    rw [← hp]
    exact ⟨fun hst => absurd hst.symm (by simp), fun _ => rfl⟩

/-- With non-negative starting balances, every constructed level's amounts
are fixed points of the rounding at the respective precision. -/
theorem build_levels_mult (c : Config) (ratio : ℚ)
    (hb : 0 ≤ c.base_balance) (hq : 0 ≤ c.quote_balance) :
    ∀ lv ∈ build_levels c ratio,
      round_decimal lv.base_position c.quantity_precision = lv.base_position ∧
      round_decimal lv.quote_budget c.price_precision = lv.quote_budget := by
  intro lv hlv
  rw [build_levels] at hlv
  obtain ⟨p, -, hp⟩ := List.mem_map.mp hlv
  by_cases h : p ≤ c.initial_price + c.eps
  · rw [if_pos h] at hp
    rw [← hp]
    refine ⟨?_, round_decimal_zero _⟩
    rcases dictGet_mem_or_zero (alloc_loop c.quantity_precision c.base_balance
        ((gen_prices c.lower_price ratio c.num_levels).filter
          (fun p => p ≤ c.initial_price + c.eps))) p with hmem | hzero
    · obtain ⟨pa, hpa, hval⟩ := List.mem_map.mp hmem
      rw [← hval]
      exact (alloc_loop_vals _ _ _ hb pa hpa).1
    · rw [hzero]
      exact round_decimal_zero _
  · rw [if_neg h] at hp
    rw [← hp]
    refine ⟨round_decimal_zero _, ?_⟩
    rcases dictGet_mem_or_zero (alloc_loop c.price_precision c.quote_balance
        ((gen_prices c.lower_price ratio c.num_levels).filter
          (fun p => ¬ (p ≤ c.initial_price + c.eps)))) p with hmem | hzero
    · obtain ⟨pa, hpa, hval⟩ := List.mem_map.mp hmem
      rw [← hval]
      exact (alloc_loop_vals _ _ _ hq pa hpa).1
    · rw [hzero]
      exact round_decimal_zero _

/-! ## Level invariants through execution -/

/-- The field not matching the status is zero. -/
def LevelOff (lv : GridLevel) : Prop :=
  (lv.status = Status.base → lv.quote_budget = 0) ∧
  (lv.status = Status.quote → lv.base_position = 0)

/-- Both amounts are fixed points of the rounding at the engine's
precisions. -/
def LevelMult (s : Statics) (lv : GridLevel) : Prop :=
  round_decimal lv.base_position s.quantity_precision = lv.base_position ∧
  round_decimal lv.quote_budget s.price_precision = lv.quote_budget

theorem buyF_off {p : ℚ} {s : Statics} {lv : GridLevel} (h : LevelOff lv) :
    LevelOff (buyF p s lv) := by
  rw [buyF]
  split
  · exact ⟨fun _ => rfl, fun hst => absurd hst (by rw [buyFlip]; simp)⟩
  · exact h

theorem sellF_off {p : ℚ} {s : Statics} {lv : GridLevel} (h : LevelOff lv) :
    LevelOff (sellF p s lv) := by
  rw [sellF]
  split
  · exact ⟨fun hst => absurd hst (by rw [sellFlip]; simp), fun _ => rfl⟩
  · exact h

theorem buyF_mult {p : ℚ} {s : Statics} {lv : GridLevel} (h : LevelMult s lv) :
    LevelMult s (buyF p s lv) := by
  rw [buyF]
  split
  · constructor
    · exact round_decimal_idem _ _
    · exact round_decimal_zero _
  · exact h

theorem sellF_mult {p : ℚ} {s : Statics} {lv : GridLevel} (h : LevelMult s lv) :
    LevelMult s (sellF p s lv) := by
  rw [sellF]
  split
  · constructor
    · exact round_decimal_zero _
    · exact round_decimal_idem _ _
  · exact h

theorem buy_hstep (p : ℚ) (s₀ : Statics) :
    ∀ (b : Bot) (lv : GridLevel) (b' : Bot) (lv' : GridLevel), statics b = s₀ →
      buy_step p b lv = Except.ok (b', lv') →
      lv' = buyF p s₀ lv ∧ b' = addDelta b (buyD p s₀ lv) := by
  intro b lv b' lv' hs h
  obtain ⟨h1, h2⟩ := buy_step_ok h
  rw [hs] at h1 h2
  exact ⟨h1, h2⟩

theorem sell_hstep (p : ℚ) (s₀ : Statics) :
    ∀ (b : Bot) (lv : GridLevel) (b' : Bot) (lv' : GridLevel), statics b = s₀ →
      sell_step p b lv = Except.ok (b', lv') →
      lv' = sellF p s₀ lv ∧ b' = addDelta b (sellD p s₀ lv) := by
  intro b lv b' lv' hs h
  obtain ⟨h1, h2⟩ := sell_step_ok h
  rw [hs] at h1 h2
  exact ⟨h1, h2⟩

theorem buy_pass_ok {p : ℚ} {b b' : Bot} {lvs lvs' : List GridLevel}
    (h : run_pass (buy_step p) b lvs = Except.ok (b', lvs')) :
    lvs' = lvs.map (buyF p (statics b)) ∧
      b' = addDelta b (dsum (lvs.map (buyD p (statics b)))) :=
  run_pass_ok_map _ _ _ (statics b) (buy_hstep p (statics b)) lvs b b' lvs' rfl h

theorem sell_pass_ok {p : ℚ} {b b' : Bot} {lvs lvs' : List GridLevel}
    (h : run_pass (sell_step p) b lvs = Except.ok (b', lvs')) :
    lvs' = lvs.map (sellF p (statics b)) ∧
      b' = addDelta b (dsum (lvs.map (sellD p (statics b)))) :=
  run_pass_ok_map _ _ _ (statics b) (sell_hstep p (statics b)) lvs b b' lvs' rfl h

/-- A level predicate parameterised by the immutable parameters and
preserved by both per-level result functions survives any tick, successful
or failing. -/
theorem tick_pred (P : Statics → GridLevel → Prop)
    (hPbuy : ∀ (pr : ℚ) (s : Statics) (lv : GridLevel), P s lv → P s (buyF pr s lv))
    (hPsell : ∀ (pr : ℚ) (s : Statics) (lv : GridLevel), P s lv → P s (sellF pr s lv))
    {b : Bot} {p : ℚ} (hb : ∀ lv ∈ b.levels, P (statics b) lv) :
    (∀ b', on_price_tick b p = Except.ok b' → ∀ lv ∈ b'.levels, P (statics b') lv) ∧
    (∀ e b', on_price_tick b p = Except.error (e, b') →
      ∀ lv ∈ b'.levels, P (statics b') lv) := by
  have hbuyLevels : ∀ (b1 : Bot) (lvsB : List GridLevel),
      run_pass (buy_step p) b b.levels = Except.ok (b1, lvsB) →
      ∀ lv ∈ lvsB, P (statics b) lv := by
    intro b1 lvsB hok lv hlv
    obtain ⟨hmap, -⟩ := buy_pass_ok hok
    rw [hmap] at hlv
    obtain ⟨y, hy, rfl⟩ := List.mem_map.mp hlv
    exact hPbuy p (statics b) y (hb y hy)
  have hbuyErrLevels : ∀ (e : GridError) (b1 : Bot) (lvs : List GridLevel),
      run_pass (buy_step p) b b.levels = Except.error (e, b1, lvs) →
      ∀ lv ∈ lvs, P (statics b) lv := by
    intro e b1 lvs herr lv hlv
    obtain ⟨done, done', lvf, rest, hsplit, hsplit', hok, -⟩ :=
      run_pass_error_split _ _ _ _ _ _ herr
    obtain ⟨hmap, -⟩ := buy_pass_ok hok
    rw [hsplit'] at hlv
    rcases List.mem_append.mp hlv with hmem | hmem
    · rw [hmap] at hmem
      obtain ⟨y, hy, rfl⟩ := List.mem_map.mp hmem
      refine hPbuy p (statics b) y (hb y ?_)
      rw [hsplit]
      exact List.mem_append.mpr (Or.inl hy)
    · refine hb lv ?_
      rw [hsplit]
      exact List.mem_append.mpr (Or.inr hmem)
  constructor
  · intro b' hok lv hlv
    obtain ⟨-, b1, lvsB, b2, lvsS, hbuy, hsell, rfl, -, -⟩ := tick_ok_inv hok
    have hs1 : statics b1 = statics b :=
      run_pass_statics_ok _ (fun _ _ _ _ => buy_step_statics) _ _ _ _ hbuy
    have hs2 : statics b2 = statics b := by
      rw [run_pass_statics_ok _ (fun _ _ _ _ => sell_step_statics) _ _ _ _ hsell, hs1]
    rw [statics_levels_set, hs2]
    replace hlv : lv ∈ lvsS := by
      rw [List.mem_reverse] at hlv
      exact hlv
    obtain ⟨hmap, -⟩ := sell_pass_ok hsell
    rw [hmap] at hlv
    obtain ⟨y, hy, rfl⟩ := List.mem_map.mp hlv
    rw [hs1]
    refine hPsell p (statics b) y ?_
    exact hbuyLevels b1 lvsB hbuy y ((List.mem_reverse).mp hy)
  · intro e b' herr lv hlv
    rcases tick_err_inv herr with ⟨-, rfl, -⟩ | ⟨-, b1, lvs, herr1, rfl⟩ |
      ⟨-, b1, lvsB, b2, lvsS, hbuy, herr2, rfl⟩ | ⟨-, -, b1, lvsB, b2, lvsS, hbuy, hsell, rfl⟩
    · exact hb lv hlv
    · have hs1 : statics b1 = statics b :=
        run_pass_statics_error _ (fun _ _ _ _ => buy_step_statics) herr1
      rw [statics_levels_set, hs1]
      exact hbuyErrLevels e b1 lvs herr1 lv hlv
    · have hs1 : statics b1 = statics b :=
        run_pass_statics_ok _ (fun _ _ _ _ => buy_step_statics) _ _ _ _ hbuy
      have hs2 : statics b2 = statics b := by
        rw [run_pass_statics_error _ (fun _ _ _ _ => sell_step_statics) herr2, hs1]
      rw [statics_levels_set, hs2]
      obtain ⟨done, done', lvf, rest, hsplit, hsplit', hok, -⟩ :=
        run_pass_error_split _ _ _ _ _ _ herr2
      have hmapS := (run_pass_ok_map _ _ _ (statics b) (sell_hstep p (statics b)) done b1 b2
        done' hs1 hok).1
      replace hlv : lv ∈ lvsS := by
        rw [List.mem_reverse] at hlv
        exact hlv
      rw [hsplit'] at hlv
      have hinB : ∀ x ∈ lvsB, P (statics b) x := hbuyLevels b1 lvsB hbuy
      rcases List.mem_append.mp hlv with hmem | hmem
      · rw [hmapS] at hmem
        obtain ⟨y, hy, rfl⟩ := List.mem_map.mp hmem
        refine hPsell p (statics b) y (hinB y ?_)
        rw [← List.mem_reverse]
        rw [hsplit]
        exact List.mem_append.mpr (Or.inl hy)
      · refine hinB lv ?_
        rw [← List.mem_reverse]
        rw [hsplit]
        exact List.mem_append.mpr (Or.inr hmem)
    · have hs1 : statics b1 = statics b :=
        run_pass_statics_ok _ (fun _ _ _ _ => buy_step_statics) _ _ _ _ hbuy
      have hs2 : statics b2 = statics b := by
        rw [run_pass_statics_ok _ (fun _ _ _ _ => sell_step_statics) _ _ _ _ hsell, hs1]
      rw [statics_levels_set, hs2]
      replace hlv : lv ∈ lvsS := by
        rw [List.mem_reverse] at hlv
        exact hlv
      have hmapS := (run_pass_ok_map _ _ _ (statics b) (sell_hstep p (statics b)) lvsB.reverse
        b1 b2 lvsS hs1 hsell).1
      rw [hmapS] at hlv
      obtain ⟨y, hy, rfl⟩ := List.mem_map.mp hlv
      exact hPsell p (statics b) y (hbuyLevels b1 lvsB hbuy y ((List.mem_reverse).mp hy))

/-! ## Base-balance bookkeeping -/

theorem addDelta_base (b : Bot) (d : Delta) :
    (addDelta b d).base_balance = b.base_balance + d.dbase := rfl

theorem addDelta_quote (b : Bot) (d : Delta) :
    (addDelta b d).quote_balance = b.quote_balance + d.dquote := rfl

theorem addDelta_history (b : Bot) (d : Delta) :
    (addDelta b d).trade_history = b.trade_history ++ d.trades := rfl

theorem base_holdings_nil : base_holdings [] = 0 := rfl

theorem base_holdings_cons (a : GridLevel) (l : List GridLevel) :
    base_holdings (a :: l) = level_base a + base_holdings l := by
  rw [base_holdings, List.map_cons, List.sum_cons]
  rfl

theorem base_holdings_append (l1 l2 : List GridLevel) :
    base_holdings (l1 ++ l2) = base_holdings l1 + base_holdings l2 := by
  rw [base_holdings, List.map_append, List.sum_append]
  rfl

theorem base_holdings_reverse (l : List GridLevel) :
    base_holdings l.reverse = base_holdings l := by
  rw [base_holdings, base_holdings, List.map_reverse, List.sum_reverse]

theorem dsum_dbase_cons (d : Delta) (l : List Delta) :
    (dsum (d :: l)).dbase = d.dbase + (dsum l).dbase := rfl

theorem level_base_buyF (p : ℚ) (s : Statics) (lv : GridLevel) :
    level_base (buyF p s lv) = level_base lv + (buyD p s lv).dbase := by
  rw [buyF, buyD]
  split
  · next hf =>
      simp [level_base, buyFlip, hf.1]
  · simp

theorem level_base_sellF (p : ℚ) (s : Statics) (lv : GridLevel)
    (hm : round_decimal lv.base_position s.quantity_precision = lv.base_position) :
    level_base (sellF p s lv) = level_base lv + (sellD p s lv).dbase := by
  rw [sellF, sellD]
  split
  · next hf =>
      have hq : (sellTrade s lv).quantity = lv.base_position := hm
      simp [level_base, sellFlip, hf.1, hq]
  · simp

theorem base_holdings_map_pointwise {lvs : List GridLevel} (F : GridLevel → GridLevel)
    (D : GridLevel → Delta)
    (hpt : ∀ lv ∈ lvs, level_base (F lv) = level_base lv + (D lv).dbase) :
    base_holdings (lvs.map F) = base_holdings lvs + (dsum (lvs.map D)).dbase := by
  induction lvs with
  | nil => simp [base_holdings_nil, dsum]
  | cons a rest ih =>
      rw [List.map_cons, List.map_cons, base_holdings_cons, base_holdings_cons,
        dsum_dbase_cons, hpt a (List.mem_cons_self a rest),
        ih (fun lv h => hpt lv (List.mem_cons_of_mem a h))]
      ring

theorem buy_segment_bdiff (p : ℚ) (s : Statics) (lvs : List GridLevel) :
    base_holdings (lvs.map (buyF p s)) =
      base_holdings lvs + (dsum (lvs.map (buyD p s))).dbase :=
  base_holdings_map_pointwise _ _ (fun lv _ => level_base_buyF p s lv)

theorem sell_segment_bdiff (p : ℚ) (s : Statics) (lvs : List GridLevel)
    (hm : ∀ lv ∈ lvs, round_decimal lv.base_position s.quantity_precision = lv.base_position) :
    base_holdings (lvs.map (sellF p s)) =
      base_holdings lvs + (dsum (lvs.map (sellD p s))).dbase :=
  base_holdings_map_pointwise _ _ (fun lv h => level_base_sellF p s lv (hm lv h))

/-- Both outcomes of a tick leave the difference between the base balance
and the summed base holdings unchanged, provided every level amount is a
fixed point of the rounding. -/
theorem tick_bdiff {b : Bot} {p : ℚ}
    (hm : ∀ lv ∈ b.levels, LevelMult (statics b) lv) :
    (∀ b', on_price_tick b p = Except.ok b' →
      b'.base_balance - base_holdings b'.levels =
        b.base_balance - base_holdings b.levels) ∧
    (∀ e b', on_price_tick b p = Except.error (e, b') →
      b'.base_balance - base_holdings b'.levels =
        b.base_balance - base_holdings b.levels) := by
  have hmB : ∀ (b1 : Bot) (lvsB : List GridLevel),
      run_pass (buy_step p) b b.levels = Except.ok (b1, lvsB) →
      ∀ lv ∈ lvsB, round_decimal lv.base_position (statics b).quantity_precision =
        lv.base_position := by
    intro b1 lvsB hok lv hlv
    obtain ⟨hmap, -⟩ := buy_pass_ok hok
    rw [hmap] at hlv
    obtain ⟨y, hy, rfl⟩ := List.mem_map.mp hlv
    exact (buyF_mult (hm y hy)).1
  have hbuy_diff : ∀ (b1 : Bot) (lvsB : List GridLevel),
      run_pass (buy_step p) b b.levels = Except.ok (b1, lvsB) →
      b1.base_balance - base_holdings lvsB = b.base_balance - base_holdings b.levels := by
    intro b1 lvsB hok
    obtain ⟨hmap, hbal⟩ := buy_pass_ok hok
    rw [hmap, hbal, addDelta_base, buy_segment_bdiff]
    ring
  have hsell_diff : ∀ (b1 b2 : Bot) (lvsIn lvsS : List GridLevel),
      statics b1 = statics b →
      (∀ lv ∈ lvsIn, round_decimal lv.base_position (statics b).quantity_precision =
        lv.base_position) →
      run_pass (sell_step p) b1 lvsIn = Except.ok (b2, lvsS) →
      b2.base_balance - base_holdings lvsS = b1.base_balance - base_holdings lvsIn := by
    intro b1 b2 lvsIn lvsS hs1 hmIn hok
    obtain ⟨hmap, hbal⟩ := run_pass_ok_map _ _ _ (statics b) (sell_hstep p (statics b))
      lvsIn b1 b2 lvsS hs1 hok
    rw [hmap, hbal, addDelta_base, sell_segment_bdiff p (statics b) lvsIn hmIn]
    ring
  constructor
  · intro b' hok
    obtain ⟨-, b1, lvsB, b2, lvsS, hbuy, hsell, rfl, -, -⟩ := tick_ok_inv hok
    have hs1 : statics b1 = statics b :=
      run_pass_statics_ok _ (fun _ _ _ _ => buy_step_statics) _ _ _ _ hbuy
    have hmRev : ∀ lv ∈ lvsB.reverse,
        round_decimal lv.base_position (statics b).quantity_precision = lv.base_position := by
      intro lv hlv
      exact hmB b1 lvsB hbuy lv ((List.mem_reverse).mp hlv)
    have h2 := hsell_diff b1 b2 lvsB.reverse lvsS hs1 hmRev hsell
    have h1 := hbuy_diff b1 lvsB hbuy
    show b2.base_balance - base_holdings lvsS.reverse = _
    rw [base_holdings_reverse, h2, base_holdings_reverse, h1]
  · intro e b' herr
    rcases tick_err_inv herr with ⟨-, rfl, -⟩ | ⟨-, b1, lvs, herr1, rfl⟩ |
      ⟨-, b1, lvsB, b2, lvsS, hbuy, herr2, rfl⟩ | ⟨-, -, b1, lvsB, b2, lvsS, hbuy, hsell, rfl⟩
    · rfl
    · obtain ⟨done, done', lvf, rest, hsplit, hsplit', hok, -⟩ :=
        run_pass_error_split _ _ _ _ _ _ herr1
      obtain ⟨hmap, hbal⟩ := run_pass_ok_map _ _ _ (statics b) (buy_hstep p (statics b))
        done b b1 done' rfl hok
      show b1.base_balance - base_holdings lvs = _
      rw [hsplit', hsplit, base_holdings_append, base_holdings_append, hmap, hbal,
        addDelta_base, buy_segment_bdiff]
      ring
    · have hs1 : statics b1 = statics b :=
        run_pass_statics_ok _ (fun _ _ _ _ => buy_step_statics) _ _ _ _ hbuy
      obtain ⟨done, done', lvf, rest, hsplit, hsplit', hok, -⟩ :=
        run_pass_error_split _ _ _ _ _ _ herr2
      have hmRev : ∀ lv ∈ done,
          round_decimal lv.base_position (statics b).quantity_precision = lv.base_position := by
        intro lv hlv
        refine hmB b1 lvsB hbuy lv ?_
        rw [← List.mem_reverse, hsplit]
        exact List.mem_append.mpr (Or.inl hlv)
      have h2 := hsell_diff b1 b2 done done' hs1 hmRev hok
      have h1 := hbuy_diff b1 lvsB hbuy
      show b2.base_balance - base_holdings lvsS.reverse = _
      rw [hsplit', base_holdings_reverse, base_holdings_append, ← h1]
      have hfull : base_holdings lvsB = base_holdings done + base_holdings (lvf :: rest) := by
        rw [← base_holdings_reverse lvsB, hsplit, base_holdings_append]
      rw [hfull]
      have := h2
      linarith
    · have hs1 : statics b1 = statics b :=
        run_pass_statics_ok _ (fun _ _ _ _ => buy_step_statics) _ _ _ _ hbuy
      have hmRev : ∀ lv ∈ lvsB.reverse,
          round_decimal lv.base_position (statics b).quantity_precision = lv.base_position := by
        intro lv hlv
        exact hmB b1 lvsB hbuy lv ((List.mem_reverse).mp hlv)
      have h2 := hsell_diff b1 b2 lvsB.reverse lvsS hs1 hmRev hsell
      have h1 := hbuy_diff b1 lvsB hbuy
      show b2.base_balance - base_holdings lvsS.reverse = _
      rw [base_holdings_reverse, h2, base_holdings_reverse, h1]

/-! ## Invariants of reachable states -/

theorem reachable_statics {c : Config} {ratio : ℚ} {b : Bot}
    (h : Reachable c ratio b) : statics b = statics (mkBot c ratio) := by
  induction h with
  | init => rfl
  | tick_ok b0 p b' hr htick ih => rw [tick_statics.1 b' htick, ih]
  | tick_err b0 p e b' hr htick ih => rw [tick_statics.2 e b' htick, ih]

theorem reachable_off {c : Config} {ratio : ℚ} {b : Bot}
    (h : Reachable c ratio b) : ∀ lv ∈ b.levels, LevelOff lv := by
  induction h with
  | init => exact fun lv hlv => build_levels_off c ratio lv hlv
  | tick_ok b0 p b' hr htick ih =>
      exact (tick_pred (fun _ lv => LevelOff lv) (fun _ _ _ => buyF_off)
        (fun _ _ _ => sellF_off) ih).1 b' htick
  | tick_err b0 p e b' hr htick ih =>
      exact (tick_pred (fun _ lv => LevelOff lv) (fun _ _ _ => buyF_off)
        (fun _ _ _ => sellF_off) ih).2 e b' htick

theorem reachable_mult {c : Config} {ratio : ℚ} {b : Bot}
    (hb : 0 ≤ c.base_balance) (hq : 0 ≤ c.quote_balance)
    (h : Reachable c ratio b) : ∀ lv ∈ b.levels, LevelMult (statics b) lv := by
  induction h with
  | init => exact fun lv hlv => build_levels_mult c ratio hb hq lv hlv
  | tick_ok b0 p b' hr htick ih =>
      exact (tick_pred LevelMult (fun _ _ _ => buyF_mult)
        (fun _ _ _ => sellF_mult) ih).1 b' htick
  | tick_err b0 p e b' hr htick ih =>
      exact (tick_pred LevelMult (fun _ _ _ => buyF_mult)
        (fun _ _ _ => sellF_mult) ih).2 e b' htick

theorem reachable_bdiff {c : Config} {ratio : ℚ} {b : Bot}
    (hb : 0 ≤ c.base_balance) (hq : 0 ≤ c.quote_balance)
    (h : Reachable c ratio b) :
    b.base_balance - base_holdings b.levels =
      c.base_balance - base_holdings (build_levels c ratio) := by
  induction h with
  | init => rfl
  | tick_ok b0 p b' hr htick ih =>
      rw [(tick_bdiff (reachable_mult hb hq hr)).1 b' htick, ih]
  | tick_err b0 p e b' hr htick ih =>
      rw [(tick_bdiff (reachable_mult hb hq hr)).2 e b' htick, ih]

/-! ## Consequences of a valid configuration -/

theorem valid_lower_pos {c : Config} (hv : ValidConfig c) : 0 < c.lower_price := by
  obtain ⟨he, hl, -⟩ := hv
  linarith

theorem ratio_gt_one {c : Config} {ratio : ℚ} (hv : ValidConfig c) (hr : RatioSpec c ratio) :
    1 < ratio := by
  obtain ⟨he, hl, hu, hn, hlu, -⟩ := hv
  by_contra hcon
  push_neg at hcon
  have h1 : ratio ^ (c.num_levels - 1) ≤ 1 := pow_le_one₀ hr.1.le hcon
  have hlp : 0 < c.lower_price := by linarith
  have h2 : 1 < c.upper_price / c.lower_price := (one_lt_div hlp).mpr hlu
  rw [hr.2] at h1
  linarith

theorem prices_nodup {c : Config} {ratio : ℚ} (hv : ValidConfig c) (hr : RatioSpec c ratio) :
    (gen_prices c.lower_price ratio c.num_levels).Nodup :=
  gen_prices_nodup (ratio_gt_one hv hr) c.num_levels (valid_lower_pos hv)

theorem base_filter_ne_nil {c : Config} (ratio : ℚ) (hv : ValidConfig c) :
    (gen_prices c.lower_price ratio c.num_levels).filter
      (fun p => p ≤ c.initial_price + c.eps) ≠ [] := by
  obtain ⟨he, hl, hu, hn, hlu, hi, hil, hiu, -⟩ := hv
  obtain ⟨m, hm⟩ : ∃ m, c.num_levels = m + 1 := ⟨c.num_levels - 1, by omega⟩
  rw [hm, gen_prices, List.filter_cons_of_pos (by simp only [decide_eq_true_eq]; linarith)]
  exact List.cons_ne_nil _ _

theorem upper_mem_gen {c : Config} {ratio : ℚ} (hv : ValidConfig c) (hr : RatioSpec c ratio) :
    c.upper_price ∈ gen_prices c.lower_price ratio c.num_levels := by
  obtain ⟨he, hl, hu, hn, -⟩ := hv
  have hlp : (0 : ℚ) < c.lower_price := by linarith
  rw [gen_prices_map_pow]
  refine List.mem_map.mpr ⟨c.num_levels - 1, List.mem_range.mpr (by omega), ?_⟩
  rw [hr.2]
  field_simp

theorem quote_filter_ne_nil {c : Config} {ratio : ℚ} (hv : ValidConfig c) (hr : RatioSpec c ratio)
    (hup : c.initial_price + c.eps < c.upper_price) :
    (gen_prices c.lower_price ratio c.num_levels).filter
      (fun p => ¬ (p ≤ c.initial_price + c.eps)) ≠ [] := by
  refine List.ne_nil_of_mem (a := c.upper_price) ?_
  refine List.mem_filter.mpr ⟨upper_mem_gen hv hr, ?_⟩
  simp only [decide_eq_true_eq]
  push_neg
  exact hup

/-! ## Claims -/

/-- C1 (corrected).  The engine's `base_balance` does not in general equal
the sum of `base_position` over HoldingBase levels: the even allocation of
`_build_levels` rounds each share down, so a non-negative remainder (dust)
stays in the free balance.  What holds instead: in every reachable state
(with non-negative starting balances) the difference between `base_balance`
and that sum equals the construction-time dust, a non-negative constant. -/
theorem C1_base_balance_diff_invariant (c : Config) (ratio : ℚ) (b : Bot)
    (hv : ValidConfig c) (hr : RatioSpec c ratio)
    (hb0 : 0 ≤ c.base_balance) (hq0 : 0 ≤ c.quote_balance)
    (hreach : Reachable c ratio b) :
    b.base_balance - base_holdings b.levels =
      c.base_balance - base_holdings (mkBot c ratio).levels ∧
    0 ≤ c.base_balance - base_holdings (mkBot c ratio).levels := by
  constructor
  · exact reachable_bdiff hb0 hq0 hreach
  · rw [mkBot_levels,
      base_holdings_build c ratio ((prices_nodup hv hr).filter _)]
    exact (alloc_remaining_bounds c.quantity_precision _ c.base_balance
      (base_filter_ne_nil ratio hv)).1

/-- C2 (confirmed).  Any `on_price_tick` call that returns normally leaves
both balances at or above `-eps`: the final `ensure_non_negative_balance`
checks raise otherwise. -/
theorem C2_balances_above_neg_eps (b : Bot) (p : ℚ) (b' : Bot)
    (h : on_price_tick b p = Except.ok b') :
    -b'.eps ≤ b'.base_balance ∧ -b'.eps ≤ b'.quote_balance := by
  obtain ⟨-, b1, lvsB, b2, lvsS, -, hsell, rfl, h1, h2⟩ := tick_ok_inv h
  exact ⟨not_lt.mp h1, not_lt.mp h2⟩

/-- C6 (corrected).  The base half of the claim holds: the allocated base
positions sum to at most `base_balance` with a gap below one quantity
rounding unit (a base-seeded level always exists, since the lowest price is
within the seeding threshold).  The quote half only holds when at least one
level is seeded with quote capital, i.e. when some generated price exceeds
`initial_price + eps`; with `initial_price = upper_price` no quote level
exists and the whole `quote_balance` is left outside the levels. -/
theorem C6_allocation_exhaustion (c : Config) (ratio : ℚ)
    (hv : ValidConfig c) (hr : RatioSpec c ratio) :
    base_holdings (mkBot c ratio).levels ≤ c.base_balance ∧
    c.base_balance - base_holdings (mkBot c ratio).levels <
      ((10 : ℚ) ^ c.quantity_precision)⁻¹ ∧
    (c.initial_price + c.eps < c.upper_price →
      quote_holdings (mkBot c ratio).levels ≤ c.quote_balance ∧
      c.quote_balance - quote_holdings (mkBot c ratio).levels <
        ((10 : ℚ) ^ c.price_precision)⁻¹) := by
  have hbase := alloc_remaining_bounds c.quantity_precision
    ((gen_prices c.lower_price ratio c.num_levels).filter
      (fun p => p ≤ c.initial_price + c.eps)) c.base_balance
    (base_filter_ne_nil ratio hv)
  rw [mkBot_levels, base_holdings_build c ratio ((prices_nodup hv hr).filter _)]
  refine ⟨by linarith [hbase.1], hbase.2, fun hup => ?_⟩
  have hquote := alloc_remaining_bounds c.price_precision
    ((gen_prices c.lower_price ratio c.num_levels).filter
      (fun p => ¬ (p ≤ c.initial_price + c.eps))) c.quote_balance
    (quote_filter_ne_nil hv hr hup)
  rw [quote_holdings_build c ratio ((prices_nodup hv hr).filter _)]
  exact ⟨by linarith [hquote.1], hquote.2⟩

/-- C7 (corrected).  The status-mismatched field of every level of every
reachable state is zero, but the status-matched field may be zero as well
(zero or dust allocations), so "exactly one of the two is non-zero" fails.
This theorem states the half that holds. -/
theorem C7_off_status_field_zero (c : Config) (ratio : ℚ) (b : Bot) (lv : GridLevel)
    (hreach : Reachable c ratio b) (hlv : lv ∈ b.levels) :
    (lv.status = Status.base → lv.quote_budget = 0) ∧
    (lv.status = Status.quote → lv.base_position = 0) :=
  reachable_off hreach lv hlv

/-- C10 (corrected).  With non-negative starting balances, every reachable
level amount is a fixed point of the truncating rounding at its precision
(equivalently, an integer multiple of the corresponding quantum), so the
initial rounding inside `execute_sell` and the quote rounding inside
`execute_buy` return their inputs unchanged and each execution debits the
engine balance by exactly the amount removed from the level.  The claim as
stated fails for the slightly negative balances admitted by the `-eps`
tolerance of the validators. -/
theorem C10_level_amounts_rounded (c : Config) (ratio : ℚ) (b : Bot) (lv : GridLevel)
    (hb0 : 0 ≤ c.base_balance) (hq0 : 0 ≤ c.quote_balance)
    (hreach : Reachable c ratio b) (hlv : lv ∈ b.levels) :
    round_decimal lv.base_position b.quantity_precision = lv.base_position ∧
    round_decimal lv.quote_budget b.price_precision = lv.quote_budget ∧
    (execute_sell lv.base_position lv.price b.fee_rate b.slippage_rate
      b.quantity_precision b.price_precision).quantity = lv.base_position ∧
    (execute_buy lv.quote_budget lv.price b.fee_rate b.slippage_rate
      b.quantity_precision b.price_precision).quote_amount = lv.quote_budget := by
  obtain ⟨h1, h2⟩ := reachable_mult hb0 hq0 hreach lv hlv
  exact ⟨h1, h2, h1, h2⟩

/-! ## Round-trip analysis -/

theorem apply_slippage_zero (price : ℚ) (side : Side) : apply_slippage price 0 side = price := by
  rw [apply_slippage, if_pos le_rfl]

theorem calculate_fee_zero (amount : ℚ) : calculate_fee amount 0 = 0 := by
  rw [calculate_fee, if_pos le_rfl]

theorem buyFlip_base_position (s : Statics) (lv : GridLevel) :
    (buyFlip s lv).base_position = (buyTrade s lv).quantity := rfl

theorem buyFlip_price (s : Statics) (lv : GridLevel) : (buyFlip s lv).price = lv.price := rfl

theorem buyTrade_quote_amount (s : Statics) (lv : GridLevel) :
    (buyTrade s lv).quote_amount = round_decimal lv.quote_budget s.price_precision := rfl

theorem buyTrade_quantity_zero (s : Statics) (lv : GridLevel)
    (hf : s.fee_rate = 0) (hs : s.slippage_rate = 0) :
    (buyTrade s lv).quantity =
      round_decimal (lv.quote_budget / lv.price) s.quantity_precision := by
  show round_decimal
      (lv.quote_budget / apply_slippage lv.price s.slippage_rate Side.buy -
        calculate_fee (lv.quote_budget / apply_slippage lv.price s.slippage_rate Side.buy)
          s.fee_rate)
      s.quantity_precision = _
  rw [hs, hf, apply_slippage_zero, calculate_fee_zero, sub_zero]

theorem sellTrade_quote_amount_zero (s : Statics) (lv : GridLevel)
    (hf : s.fee_rate = 0) (hs : s.slippage_rate = 0) :
    (sellTrade s lv).quote_amount =
      round_decimal (round_decimal lv.base_position s.quantity_precision * lv.price)
        s.price_precision := by
  show round_decimal
      (round_decimal lv.base_position s.quantity_precision *
          apply_slippage lv.price s.slippage_rate Side.sell -
        calculate_fee
          (round_decimal lv.base_position s.quantity_precision *
            apply_slippage lv.price s.slippage_rate Side.sell)
          s.fee_rate)
      s.price_precision = _
  rw [hs, hf, apply_slippage_zero, calculate_fee_zero, sub_zero]

theorem execute_buy_level_ok {b : Bot} {lv : GridLevel} {b' : Bot} {lv' : GridLevel}
    (h : execute_buy_level b lv = Except.ok (b', lv')) :
    (lv.quote_budget ≤ b.eps ∧ b' = b ∧ lv' = lv) ∨
    (b.eps < lv.quote_budget ∧ b.eps < (buyTrade (statics b) lv).quantity ∧
      lv' = buyFlip (statics b) lv ∧
      b' = addDelta b
        { dbase := (buyTrade (statics b) lv).quantity
          dquote := -(buyTrade (statics b) lv).quote_amount
          trades := [buyLog (statics b) lv] }) := by
  simp only [execute_buy_level] at h
  split at h
  · next hskip =>
      simp only [Except.ok.injEq, Prod.mk.injEq] at h
      exact Or.inl ⟨hskip, h.1.symm, h.2.symm⟩
  · next hskip =>
      split at h
      · exact absurd h (by simp)
      · next hbal =>
          split at h
          · exact absurd h (by simp)
          · next hq =>
              simp only [Except.ok.injEq, Prod.mk.injEq] at h
              refine Or.inr ⟨not_le.mp hskip, not_le.mp hq, h.2.symm, ?_⟩
              rw [← h.1, addDelta]
              simp [buyTrade, buyLog, statics, sub_eq_add_neg]

theorem execute_sell_level_ok {b : Bot} {lv : GridLevel} {b' : Bot} {lv' : GridLevel}
    (h : execute_sell_level b lv = Except.ok (b', lv')) :
    (lv.base_position ≤ b.eps ∧ b' = b ∧ lv' = lv) ∨
    (b.eps < lv.base_position ∧ b.eps < (sellTrade (statics b) lv).quote_amount ∧
      lv' = sellFlip (statics b) lv ∧
      b' = addDelta b
        { dbase := -(sellTrade (statics b) lv).quantity
          dquote := (sellTrade (statics b) lv).quote_amount
          trades := [sellLog (statics b) lv] }) := by
  simp only [execute_sell_level] at h
  split at h
  · next hskip =>
      simp only [Except.ok.injEq, Prod.mk.injEq] at h
      exact Or.inl ⟨hskip, h.1.symm, h.2.symm⟩
  · next hskip =>
      split at h
      · exact absurd h (by simp)
      · next hbal =>
          split at h
          · exact absurd h (by simp)
          · next hq =>
              simp only [Except.ok.injEq, Prod.mk.injEq] at h
              refine Or.inr ⟨not_le.mp hskip, not_le.mp hq, h.2.symm, ?_⟩
              rw [← h.1, addDelta]
              simp [sellTrade, sellLog, statics, sub_eq_add_neg]

/-- C3 (corrected).  With zero fee and slippage, buying a level's quote
budget and selling the resulting position back at the same level restores
`base_balance` exactly, but `quote_balance` only returns to at most its
prior value: the quantity bought is rounded down, so the proceeds
`round_decimal(quantity * price)` can fall short of the quote spent. -/
theorem C3_roundtrip_base_exact_quote_loss (b : Bot) (lv : GridLevel) (b1 b2 : Bot)
    (lv1 lv2 : GridLevel)
    (heps : 0 < b.eps) (hpr : 0 < lv.price) (hpos : lv.base_position = 0)
    (hfee : b.fee_rate = 0) (hslip : b.slippage_rate = 0)
    (hbuy : execute_buy_level b lv = Except.ok (b1, lv1))
    (hsell : execute_sell_level b1 lv1 = Except.ok (b2, lv2)) :
    b2.base_balance = b.base_balance ∧ b2.quote_balance ≤ b.quote_balance := by
  rcases execute_buy_level_ok hbuy with ⟨hskip, rfl, rfl⟩ | ⟨hgt, hq, rfl, rfl⟩
  · rcases execute_sell_level_ok hsell with ⟨-, rfl, rfl⟩ | ⟨hgt2, -, -, -⟩
    · exact ⟨rfl, le_refl _⟩
    · rw [hpos] at hgt2
      exact absurd hgt2 (not_lt.mpr heps.le)
  · rcases execute_sell_level_ok hsell with ⟨hskip2, rfl, rfl⟩ | ⟨hgt2, hq2, rfl, rfl⟩
    · exact absurd hskip2 (not_le.mpr hq)
    · have hfs : (statics b).fee_rate = 0 := hfee
      have hss : (statics b).slippage_rate = 0 := hslip
      have hidem : round_decimal ((buyTrade (statics b) lv).quantity)
          (statics b).quantity_precision = (buyTrade (statics b) lv).quantity :=
        round_decimal_idem _ _
      constructor
      · show b.base_balance + (buyTrade (statics b) lv).quantity +
            -(sellTrade (statics b) (buyFlip (statics b) lv)).quantity = b.base_balance
        have hqid : (sellTrade (statics b) (buyFlip (statics b) lv)).quantity =
            (buyTrade (statics b) lv).quantity := round_decimal_idem _ _
        rw [hqid]
        ring
      · show b.quote_balance + -(buyTrade (statics b) lv).quote_amount +
            (sellTrade (statics b) (buyFlip (statics b) lv)).quote_amount ≤ b.quote_balance
        have hsq := sellTrade_quote_amount_zero (statics b) (buyFlip (statics b) lv) hfs hss
        rw [buyFlip_base_position, buyFlip_price, hidem] at hsq
        have hq0 : (0 : ℚ) ≤ lv.quote_budget / lv.price :=
          div_nonneg (le_trans heps.le hgt.le) hpr.le
        have hle1 : (buyTrade (statics b) lv).quantity ≤ lv.quote_budget / lv.price := by
          rw [buyTrade_quantity_zero (statics b) lv hfs hss]
          exact round_decimal_le _ hq0
        have hle2 : (buyTrade (statics b) lv).quantity * lv.price ≤ lv.quote_budget :=
          (le_div_iff hpr).mp hle1
        have hle3 : (sellTrade (statics b) (buyFlip (statics b) lv)).quote_amount ≤
            (buyTrade (statics b) lv).quote_amount := by
          rw [hsq, buyTrade_quote_amount]
          exact round_decimal_mono _ hle2
        linarith

/-- C5 (corrected).  The generated (unrounded) price ladder is strictly
increasing with consecutive ratio exactly the grid ratio, but the prices
stored on the constructed levels are rounded down to the price precision
and are therefore only non-decreasing: consecutive stored prices can
coincide. -/
theorem C5_ladder_monotone (c : Config) (ratio : ℚ)
    (hv : ValidConfig c) (hr : RatioSpec c ratio) :
    List.Chain' (· < ·) (gen_prices c.lower_price ratio c.num_levels) ∧
    List.Chain' (fun a b => b = a * ratio) (gen_prices c.lower_price ratio c.num_levels) ∧
    List.Chain' (· ≤ ·) ((mkBot c ratio).levels.map GridLevel.price) := by
  have hlt := gen_prices_chain_lt (ratio_gt_one hv hr) c.num_levels c.lower_price
    (valid_lower_pos hv)
  refine ⟨hlt, gen_prices_chain_mul ratio c.num_levels c.lower_price, ?_⟩
  rw [mkBot_levels, build_levels_map_price]
  rw [List.chain'_map]
  exact hlt.imp (fun a b hab => round_decimal_mono _ hab.le)

/-! ## Quiescence after a tick -/

theorem buyF_price (p : ℚ) (s : Statics) (lv : GridLevel) : (buyF p s lv).price = lv.price := by
  rw [buyF]
  split <;> rfl

theorem sellF_price (p : ℚ) (s : Statics) (lv : GridLevel) :
    (sellF p s lv).price = lv.price := by
  rw [sellF]
  split <;> rfl

theorem buy_step_id {p : ℚ} {b : Bot} {lv : GridLevel}
    (hq : lv.status = Status.quote → p ≤ lv.price + b.eps → lv.quote_budget ≤ b.eps) :
    buy_step p b lv = Except.ok (b, lv) := by
  rw [buy_step]
  split
  · next htrig =>
      rw [execute_buy_level]
      split
      · rfl
      · next hskip => exact absurd (hq htrig.1 htrig.2) hskip
  · rfl

theorem sell_step_id {p : ℚ} {b : Bot} {lv : GridLevel}
    (hq : lv.status = Status.base → lv.price - b.eps ≤ p → lv.base_position ≤ b.eps) :
    sell_step p b lv = Except.ok (b, lv) := by
  rw [sell_step]
  split
  · next htrig =>
      rw [execute_sell_level]
      split
      · rfl
      · next hskip => exact absurd (hq htrig.1 htrig.2) hskip
  · rfl

/-- After the sell pass has followed the buy pass at a tick price separated
from every level price by more than eps, the resulting level triggers no
further action at the same price: a triggered buy would find a budget at
most eps and a triggered sell a position at most eps. -/
theorem pair_quiescent {p : ℚ} {s : Statics} {lv : GridLevel}
    (hsep : ¬ (p ≤ lv.price + s.eps ∧ lv.price - s.eps ≤ p)) :
    ((sellF p s (buyF p s lv)).status = Status.quote →
      p ≤ (sellF p s (buyF p s lv)).price + s.eps →
      (sellF p s (buyF p s lv)).quote_budget ≤ s.eps) ∧
    ((sellF p s (buyF p s lv)).status = Status.base →
      (sellF p s (buyF p s lv)).price - s.eps ≤ p →
      (sellF p s (buyF p s lv)).base_position ≤ s.eps) := by
  rw [buyF]
  split
  · next hbf =>
      rw [sellF]
      split
      · next hsf => exact absurd ⟨hbf.2.1, hsf.2.1⟩ hsep
      · constructor
        · intro hst
          exact absurd hst (by rw [buyFlip]; simp)
        · intro hst hpb
          exact absurd ⟨hbf.2.1, hpb⟩ hsep
  · next hnf =>
      rw [sellF]
      split
      · next hsf =>
          constructor
          · intro hst hple
            exact absurd ⟨hple, hsf.2.1⟩ hsep
          · intro hst
            exact absurd hst (by rw [sellFlip]; simp)
      · next hns =>
          constructor
          · intro hst hple
            by_contra hbudget
            exact hnf ⟨hst, hple, not_le.mp hbudget⟩
          · intro hst hpge
            by_contra hposn
            exact hns ⟨hst, hpge, not_le.mp hposn⟩

/-- C4 (corrected).  Re-feeding the same price is a no-op — no trades, no
balance or level change — provided the price is separated from every level
price by more than eps.  On the eps band the claim fails: a level bought in
the ascending pass is immediately sell-eligible in the descending pass of
the same tick, flips back, and trades again on every repeated tick. -/
theorem C4_retick_identity (b : Bot) (p : ℚ) (b1 : Bot)
    (hsep : ∀ lv ∈ b.levels, ¬ (p ≤ lv.price + b.eps ∧ lv.price - b.eps ≤ p))
    (h1 : on_price_tick b p = Except.ok b1) :
    on_price_tick b1 p = Except.ok b1 := by
  obtain ⟨hp, ba, lvsB, b2, lvsS, hbuy, hsell, rfl, hc1, hc2⟩ := tick_ok_inv h1
  have hs1 : statics ba = statics b :=
    run_pass_statics_ok _ (fun _ _ _ _ => buy_step_statics) _ _ _ _ hbuy
  have hs2 : statics b2 = statics b := by
    rw [run_pass_statics_ok _ (fun _ _ _ _ => sell_step_statics) _ _ _ _ hsell, hs1]
  obtain ⟨hmapB, -⟩ := buy_pass_ok hbuy
  have hmapS := (run_pass_ok_map _ _ _ (statics b) (sell_hstep p (statics b))
    lvsB.reverse ba b2 lvsS hs1 hsell).1
  have hmem : ∀ lv ∈ lvsS.reverse, ∃ y ∈ b.levels,
      lv = sellF p (statics b) (buyF p (statics b) y) := by
    intro lv hlv
    rw [List.mem_reverse, hmapS] at hlv
    obtain ⟨x, hx, rfl⟩ := List.mem_map.mp hlv
    rw [List.mem_reverse, hmapB] at hx
    obtain ⟨y, hy, rfl⟩ := List.mem_map.mp hx
    exact ⟨y, hy, rfl⟩
  have hqsc : ∀ lv ∈ lvsS.reverse,
      (lv.status = Status.quote → p ≤ lv.price + (statics b).eps →
        lv.quote_budget ≤ (statics b).eps) ∧
      (lv.status = Status.base → lv.price - (statics b).eps ≤ p →
        lv.base_position ≤ (statics b).eps) := by
    intro lv hlv
    obtain ⟨y, hy, rfl⟩ := hmem lv hlv
    exact pair_quiescent (hsep y hy)
  have hbeps : b2.eps = b.eps := congrArg Statics.eps hs2
  have hneps : ¬ (p ≤ b2.eps) := by
    rw [hbeps]
    exact not_le.mpr hp
  have hbuy_id : run_pass (buy_step p) { b2 with levels := lvsS.reverse } lvsS.reverse =
      Except.ok ({ b2 with levels := lvsS.reverse }, lvsS.reverse) := by
    refine run_pass_id _ _ _ (fun lv hlv => ?_)
    refine buy_step_id (fun hst hple => ?_)
    have hple' : p ≤ lv.price + (statics b).eps := by
      rw [show ((statics b).eps : ℚ) = b.eps from rfl, ← hbeps]
      exact hple
    have := (hqsc lv hlv).1 hst hple'
    show lv.quote_budget ≤ b2.eps
    rw [hbeps]
    exact this
  have hsell_id : run_pass (sell_step p) { b2 with levels := lvsS.reverse } lvsS =
      Except.ok ({ b2 with levels := lvsS.reverse }, lvsS) := by
    refine run_pass_id _ _ _ (fun lv hlv => ?_)
    refine sell_step_id (fun hst hge => ?_)
    have hge' : lv.price - (statics b).eps ≤ p := by
      rw [show ((statics b).eps : ℚ) = b.eps from rfl, ← hbeps]
      exact hge
    have := (hqsc lv (List.mem_reverse.mpr hlv)).2 hst hge'
    show lv.base_position ≤ b2.eps
    rw [hbeps]
    exact this
  rw [on_price_tick]
  dsimp only
  rw [if_neg hneps, hbuy_id]
  dsimp only
  rw [List.reverse_reverse, hsell_id]
  dsimp only
  rw [if_neg hc1, if_neg hc2]

/-! ## Commutation of the two passes -/

theorem buy_sell_not_both {p : ℚ} {s : Statics} {lv : GridLevel}
    (hbf : buy_fires p s lv) : ¬ sell_fires p s lv := by
  intro hsf
  rw [buy_fires] at hbf
  rw [sell_fires] at hsf
  rw [hbf.1] at hsf
  exact absurd hsf.1 (by simp)

theorem sellF_buyF_comm {p : ℚ} {s : Statics} {lv : GridLevel}
    (hsep : ¬ (p ≤ lv.price + s.eps ∧ lv.price - s.eps ≤ p)) :
    sellF p s (buyF p s lv) = buyF p s (sellF p s lv) := by
  by_cases hbf : buy_fires p s lv
  · have hnsf : ¬ sell_fires p s lv := buy_sell_not_both hbf
    have hnsf2 : ¬ sell_fires p s (buyFlip s lv) := fun hsf2 => hsep ⟨hbf.2.1, hsf2.2.1⟩
    have e1 : buyF p s lv = buyFlip s lv := by rw [buyF, if_pos hbf]
    have e2 : sellF p s (buyFlip s lv) = buyFlip s lv := by rw [sellF, if_neg hnsf2]
    have e3 : sellF p s lv = lv := by rw [sellF, if_neg hnsf]
    rw [e1, e2, e3, e1]
  · by_cases hsf : sell_fires p s lv
    · have hnbf2 : ¬ buy_fires p s (sellFlip s lv) := fun hbf2 => hsep ⟨hbf2.2.1, hsf.2.1⟩
      have e1 : buyF p s lv = lv := by rw [buyF, if_neg hbf]
      have e2 : sellF p s lv = sellFlip s lv := by rw [sellF, if_pos hsf]
      have e3 : buyF p s (sellFlip s lv) = sellFlip s lv := by rw [buyF, if_neg hnbf2]
      rw [e1, e2, e3]
    · have e1 : buyF p s lv = lv := by rw [buyF, if_neg hbf]
      have e2 : sellF p s lv = lv := by rw [sellF, if_neg hsf]
      rw [e1, e2, e1]

theorem sellD_buyF {p : ℚ} {s : Statics} {lv : GridLevel}
    (hsep : ¬ (p ≤ lv.price + s.eps ∧ lv.price - s.eps ≤ p)) :
    sellD p s (buyF p s lv) = sellD p s lv := by
  by_cases hbf : buy_fires p s lv
  · have hnsf : ¬ sell_fires p s lv := buy_sell_not_both hbf
    have hnsf2 : ¬ sell_fires p s (buyFlip s lv) := fun hsf2 => hsep ⟨hbf.2.1, hsf2.2.1⟩
    have e1 : buyF p s lv = buyFlip s lv := by rw [buyF, if_pos hbf]
    rw [e1, sellD, if_neg hnsf2, sellD, if_neg hnsf]
  · rw [buyF, if_neg hbf]

theorem buyD_sellF {p : ℚ} {s : Statics} {lv : GridLevel}
    (hsep : ¬ (p ≤ lv.price + s.eps ∧ lv.price - s.eps ≤ p)) :
    buyD p s (sellF p s lv) = buyD p s lv := by
  by_cases hsf : sell_fires p s lv
  · have hnbf : ¬ buy_fires p s lv := fun hbf => buy_sell_not_both hbf hsf
    have hnbf2 : ¬ buy_fires p s (sellFlip s lv) := fun hbf2 => hsep ⟨hbf2.2.1, hsf.2.1⟩
    have e1 : sellF p s lv = sellFlip s lv := by rw [sellF, if_pos hsf]
    rw [e1, buyD, if_neg hnbf2, buyD, if_neg hnbf]
  · rw [sellF, if_neg hsf]

/-- Inversion of a successful sells-first tick. -/
theorem tick_swapped_ok_inv {b : Bot} {p : ℚ} {b' : Bot}
    (h : on_price_tick_sells_first b p = Except.ok b') :
    b.eps < p ∧ ∃ b1 lvsR b2 lvs2,
      run_pass (sell_step p) b b.levels.reverse = Except.ok (b1, lvsR) ∧
      run_pass (buy_step p) b1 lvsR.reverse = Except.ok (b2, lvs2) ∧
      b' = { b2 with levels := lvs2 } ∧
      ¬ b2.base_balance < -b2.eps ∧ ¬ b2.quote_balance < -b2.eps := by
  rw [on_price_tick_sells_first] at h
  split at h
  · exact absurd h (by simp)
  · next hp =>
      refine ⟨not_le.mp hp, ?_⟩
      cases hsell : run_pass (sell_step p) b b.levels.reverse with
      | error t =>
          obtain ⟨e1, bb, ll⟩ := t
          rw [hsell] at h
          exact absurd h (by simp)
      | ok r =>
          obtain ⟨b1, lvsR⟩ := r
          rw [hsell] at h
          dsimp only at h
          cases hbuy : run_pass (buy_step p) b1 lvsR.reverse with
          | error t =>
              obtain ⟨e1, bb, ll⟩ := t
              rw [hbuy] at h
              exact absurd h (by simp)
          | ok r2 =>
              obtain ⟨b2, lvs2⟩ := r2
              rw [hbuy] at h
              dsimp only at h
              split at h
              · exact absurd h (by simp)
              · split at h
                · exact absurd h (by simp)
                · next h1 h2 =>
                    cases h
                    exact ⟨b1, lvsR, b2, lvs2, rfl, hbuy, rfl, h1, h2⟩

/-- C9 (corrected).  When the tick price is separated from every level
price by more than eps, running the descending sell pass before the
ascending buy pass gives the same balances and levels, and the same trades
up to order (buy trades precede sell trades in the source order and follow
them in the swapped order).  On the eps band the two orders genuinely
diverge, and even off the band the trade *sequences* differ. -/
theorem C9_pass_order_commutes (b : Bot) (p : ℚ) (b1 b2 : Bot)
    (hsep : ∀ lv ∈ b.levels, ¬ (p ≤ lv.price + b.eps ∧ lv.price - b.eps ≤ p))
    (h1 : on_price_tick b p = Except.ok b1)
    (h2 : on_price_tick_sells_first b p = Except.ok b2) :
    b1.base_balance = b2.base_balance ∧ b1.quote_balance = b2.quote_balance ∧
    b1.levels = b2.levels ∧ b1.trade_history.Perm b2.trade_history := by
  obtain ⟨hp, ba, lvsB, b2n, lvsS, hbuy, hsell, rfl, -, -⟩ := tick_ok_inv h1
  obtain ⟨-, bs1, lvsR, bs2, lvs2, hsellS, hbuyS, rfl, -, -⟩ := tick_swapped_ok_inv h2
  have hsep' : ∀ lv ∈ b.levels,
      ¬ (p ≤ lv.price + (statics b).eps ∧ lv.price - (statics b).eps ≤ p) := hsep
  obtain ⟨hmapB, hbalB⟩ := buy_pass_ok hbuy
  have hsa : statics ba = statics b :=
    run_pass_statics_ok _ (fun _ _ _ _ => buy_step_statics) _ _ _ _ hbuy
  obtain ⟨hmapS, hbalS⟩ := run_pass_ok_map _ (sellF p (statics b)) (sellD p (statics b))
    (statics b) (sell_hstep p (statics b)) lvsB.reverse ba b2n lvsS hsa hsell
  obtain ⟨hmapS2, hbalS2⟩ := sell_pass_ok hsellS
  have hsb : statics bs1 = statics b :=
    run_pass_statics_ok _ (fun _ _ _ _ => sell_step_statics) _ _ _ _ hsellS
  obtain ⟨hmapB2, hbalB2⟩ := run_pass_ok_map _ (buyF p (statics b)) (buyD p (statics b))
    (statics b) (buy_hstep p (statics b)) lvsR.reverse bs1 bs2 lvs2 hsb hbuyS
  have nB : lvsB.reverse = List.map (buyF p (statics b)) b.levels.reverse := by
    rw [hmapB, List.map_reverse]
  have nSin : List.map (sellD p (statics b)) lvsB.reverse =
      List.map (sellD p (statics b)) b.levels.reverse := by
    rw [nB, List.map_map]
    refine List.map_congr_left fun y hy => ?_
    exact sellD_buyF (hsep' y (List.mem_reverse.mp hy))
  have nR : lvsR.reverse = List.map (sellF p (statics b)) b.levels := by
    rw [hmapS2, List.map_reverse, List.reverse_reverse]
  have nBin : List.map (buyD p (statics b)) lvsR.reverse =
      List.map (buyD p (statics b)) b.levels := by
    rw [nR, List.map_map]
    refine List.map_congr_left fun y hy => ?_
    exact buyD_sellF (hsep' y hy)
  have hlevN : lvsS.reverse =
      List.map (fun lv => sellF p (statics b) (buyF p (statics b) lv)) b.levels := by
    rw [hmapS, nB, List.map_map, ← List.map_reverse, List.reverse_reverse]
    rfl
  have hlevS : lvs2 = List.map (fun lv => buyF p (statics b) (sellF p (statics b) lv))
      b.levels := by
    rw [hmapB2, nR, List.map_map]
    rfl
  have hlev : lvsS.reverse = lvs2 := by
    rw [hlevN, hlevS]
    refine List.map_congr_left fun y hy => ?_
    exact sellF_buyF_comm (hsep' y hy)
  have hb2n : b2n = addDelta (addDelta b (dsum (List.map (buyD p (statics b)) b.levels)))
      (dsum (List.map (sellD p (statics b)) b.levels.reverse)) := by
    rw [hbalS, nSin, hbalB]
  have hbs2 : bs2 = addDelta (addDelta b (dsum (List.map (sellD p (statics b)) b.levels.reverse)))
      (dsum (List.map (buyD p (statics b)) b.levels)) := by
    rw [hbalB2, nBin, hbalS2]
  refine ⟨?_, ?_, hlev, ?_⟩
  · show b2n.base_balance = bs2.base_balance
    rw [hb2n, hbs2, addDelta_base, addDelta_base, addDelta_base, addDelta_base]
    ring
  · show b2n.quote_balance = bs2.quote_balance
    rw [hb2n, hbs2, addDelta_quote, addDelta_quote, addDelta_quote, addDelta_quote]
    ring
  · show b2n.trade_history.Perm bs2.trade_history
    rw [hb2n, hbs2, addDelta_history, addDelta_history, addDelta_history, addDelta_history,
      List.append_assoc, List.append_assoc]
    exact List.Perm.append_left _ (List.perm_append_comm)

/-! ## Error propagation -/

/-- C8 (confirmed).  If the execution at some level raises a balance error
(insufficient balance or degenerate trade), the error propagates out of
`on_price_tick` carrying the partially mutated state; the pass decomposes
into a successfully committed prefix (whose balance and trade-history
changes are retained — the returned engine scalars are exactly the result
of running that prefix alone), the failing level itself left unchanged, and
an untouched suffix of levels that are never processed. -/
theorem C8_error_propagation (b : Bot) (p : ℚ) (hp : b.eps < p) :
    (∀ e b1 lvs, run_pass (buy_step p) b b.levels = Except.error (e, b1, lvs) →
      on_price_tick b p = Except.error (e, { b1 with levels := lvs }) ∧
      ∃ done done' lv rest,
        b.levels = done ++ lv :: rest ∧ lvs = done' ++ lv :: rest ∧
        run_pass (buy_step p) b done = Except.ok (b1, done') ∧
        buy_step p b1 lv = Except.error e) ∧
    (∀ b1 lvsB e b2 lvs, run_pass (buy_step p) b b.levels = Except.ok (b1, lvsB) →
      run_pass (sell_step p) b1 lvsB.reverse = Except.error (e, b2, lvs) →
      on_price_tick b p = Except.error (e, { b2 with levels := lvs.reverse }) ∧
      ∃ done done' lv rest,
        lvsB.reverse = done ++ lv :: rest ∧ lvs = done' ++ lv :: rest ∧
        run_pass (sell_step p) b1 done = Except.ok (b2, done') ∧
        sell_step p b2 lv = Except.error e) := by
  constructor
  · intro e b1 lvs herr
    constructor
    · rw [on_price_tick, if_neg (not_le.mpr hp), herr]
    · exact run_pass_error_split _ _ _ _ _ _ herr
  · intro b1 lvsB e b2 lvs hbuy hsell
    constructor
    · rw [on_price_tick, if_neg (not_le.mpr hp), hbuy]
      dsimp only
      rw [hsell]
    · exact run_pass_error_split _ _ _ _ _ _ hsell

section ConcreteEvaluation

attribute [local semireducible] Rat.mul Rat.add Rat.sub Rat.inv Rat.ofScientific

/-- C1, refuting input: with a base balance of 0.015 and quantity precision
2, the single base-seeded level receives 0.01 and the engine balance 0.015
differs from the summed positions already at construction. -/
theorem C1_counterexample :
    ValidConfig cfgC1 ∧ RatioSpec cfgC1 2 ∧
    (mkBot cfgC1 2).base_balance ≠ base_holdings (mkBot cfgC1 2).levels := by
  decide

/-- C1 witness: the amended statement applied to the constructed engine of
the well-behaved configuration `cfgA`. -/
theorem C1_witness :
    ValidConfig cfgA ∧ RatioSpec cfgA 2 ∧ (0 : ℚ) ≤ cfgA.base_balance ∧
    (0 : ℚ) ≤ cfgA.quote_balance ∧
    0 ≤ cfgA.base_balance - base_holdings (mkBot cfgA 2).levels :=
  ⟨by decide, by decide, by decide, by decide,
    (C1_base_balance_diff_invariant cfgA 2 (mkBot cfgA 2) (by decide) (by decide)
      (by decide) (by decide) Reachable.init).2⟩

/-- C2 witness: a concrete successful tick, with the balance bounds given
by the theorem. -/
theorem C2_witness :
    on_price_tick (mkBot cfgA 2) 150 = Except.ok tbA150 ∧
    -tbA150.eps ≤ tbA150.base_balance ∧ -tbA150.eps ≤ tbA150.quote_balance := by
  have h : on_price_tick (mkBot cfgA 2) 150 = Except.ok tbA150 := by decide
  exact ⟨h, (C2_balances_above_neg_eps _ 150 tbA150 h).1,
    (C2_balances_above_neg_eps _ 150 tbA150 h).2⟩

/-- C6, refuting input: with the initial price equal to the upper bound no
level is quote-seeded, and the entire quote balance of 1000 stays outside
the levels, far above one rounding unit. -/
theorem C6_counterexample :
    ValidConfig cfgC6 ∧ RatioSpec cfgC6 2 ∧
    ¬ (cfgC6.quote_balance - quote_holdings (mkBot cfgC6 2).levels <
        ((10 : ℚ) ^ cfgC6.price_precision)⁻¹) := by
  decide

/-- C6 witness: the amended statement applied to `cfgA`, whose upper bound
exceeds the seeding threshold. -/
theorem C6_witness :
    ValidConfig cfgA ∧ RatioSpec cfgA 2 ∧
    base_holdings (mkBot cfgA 2).levels ≤ cfgA.base_balance ∧
    cfgA.base_balance - base_holdings (mkBot cfgA 2).levels <
      ((10 : ℚ) ^ cfgA.quantity_precision)⁻¹ ∧
    quote_holdings (mkBot cfgA 2).levels ≤ cfgA.quote_balance ∧
    cfgA.quote_balance - quote_holdings (mkBot cfgA 2).levels <
      ((10 : ℚ) ^ cfgA.price_precision)⁻¹ := by
  have H := C6_allocation_exhaustion cfgA 2 (by decide) (by decide)
  exact ⟨by decide, by decide, H.1, H.2.1, (H.2.2 (by decide)).1, (H.2.2 (by decide)).2⟩

/-- C7, refuting input: with a zero base balance the base-seeded level of
the constructed engine has both amounts zero, so it is not the case that
exactly one of `quote_budget` and `base_position` is non-zero. -/
theorem C7_counterexample :
    ValidConfig cfgC7 ∧ RatioSpec cfgC7 2 ∧ lvC7 ∈ (mkBot cfgC7 2).levels ∧
    lvC7.status = Status.base ∧
    ¬ (lvC7.base_position ≠ 0 ∨ lvC7.quote_budget ≠ 0) := by
  decide

/-- C7 witness: the amended statement applied to the base-seeded level of
`cfgA`. -/
theorem C7_witness :
    lvA ∈ (mkBot cfgA 2).levels ∧
    (lvA.status = Status.base → lvA.quote_budget = 0) ∧
    (lvA.status = Status.quote → lvA.base_position = 0) :=
  ⟨by decide, C7_off_status_field_zero cfgA 2 (mkBot cfgA 2) lvA Reachable.init (by decide)⟩

/-- C10, refuting input: a base balance of `-1e-10` passes validation
(`≥ -eps`), the allocation caps at the negative remainder, and the level
position `-1e-10` is not an integer multiple of the quantum `1e-8`. -/
theorem C10_counterexample :
    ValidConfig cfgC10 ∧ RatioSpec cfgC10 2 ∧ lvC10 ∈ (mkBot cfgC10 2).levels ∧
    ¬ ∃ k : ℤ, lvC10.base_position = (k : ℚ) / 10 ^ (8 : ℕ) := by
  refine ⟨by decide, by decide, by decide, ?_⟩
  rintro ⟨k, hk⟩
  have hfix := round_decimal_int_div k 8
  rw [← hk] at hfix
  have hne : round_decimal lvC10.base_position 8 ≠ lvC10.base_position := by decide
  exact hne hfix

/-- C10 witness: the amended statement applied to the base-seeded level of
`cfgA`. -/
theorem C10_witness :
    lvA ∈ (mkBot cfgA 2).levels ∧
    round_decimal lvA.base_position (mkBot cfgA 2).quantity_precision = lvA.base_position ∧
    round_decimal lvA.quote_budget (mkBot cfgA 2).price_precision = lvA.quote_budget :=
  ⟨by decide,
    (C10_level_amounts_rounded cfgA 2 (mkBot cfgA 2) lvA (by decide) (by decide)
      Reachable.init (by decide)).1,
    (C10_level_amounts_rounded cfgA 2 (mkBot cfgA 2) lvA (by decide) (by decide)
      Reachable.init (by decide)).2.1⟩

/-- C3, refuting input: buying a budget of 10 at price 3 (no fees, both
precisions 2) yields 3.33 base; selling back returns 9.99 quote, not the 10
spent, so the quote balance is not restored exactly. -/
theorem C3_counterexample :
    botC3.fee_rate = 0 ∧ botC3.slippage_rate = 0 ∧
    execute_buy_level botC3 lvC3 = Except.ok c3buy ∧
    execute_sell_level c3buy.1 c3buy.2 = Except.ok c3sell ∧
    c3sell.1.quote_balance ≠ botC3.quote_balance := by
  decide

/-- C3 witness: the amended statement applied to the same concrete buy and
sell. -/
theorem C3_witness :
    (0 : ℚ) < botC3.eps ∧ 0 < lvC3.price ∧ lvC3.base_position = 0 ∧
    botC3.fee_rate = 0 ∧ botC3.slippage_rate = 0 ∧
    execute_buy_level botC3 lvC3 = Except.ok (c3buy.1, c3buy.2) ∧
    execute_sell_level c3buy.1 c3buy.2 = Except.ok (c3sell.1, c3sell.2) ∧
    c3sell.1.base_balance = botC3.base_balance ∧
    c3sell.1.quote_balance ≤ botC3.quote_balance := by
  have h1 : execute_buy_level botC3 lvC3 = Except.ok (c3buy.1, c3buy.2) := by decide
  have h2 : execute_sell_level c3buy.1 c3buy.2 = Except.ok (c3sell.1, c3sell.2) := by decide
  have H := C3_roundtrip_base_exact_quote_loss botC3 lvC3 c3buy.1 c3sell.1 c3buy.2 c3sell.2
    (by decide) (by decide) (by decide) (by decide) (by decide) h1 h2
  exact ⟨by decide, by decide, by decide, by decide, by decide, h1, h2, H.1, H.2⟩

/-- C5, refuting input: with ratio 1.001 over three levels and price
precision 0, the generated prices 100, 100.1, 100.2001 are stored as 100,
100, 100 — not strictly increasing. -/
theorem C5_counterexample :
    ValidConfig cfgC5 ∧ RatioSpec cfgC5 (1001 / 1000) ∧
    (mkBot cfgC5 (1001 / 1000)).levels.map GridLevel.price = [100, 100, 100] ∧
    ¬ List.Chain' (· < ·) ((mkBot cfgC5 (1001 / 1000)).levels.map GridLevel.price) := by
  have hmap : (mkBot cfgC5 (1001 / 1000)).levels.map GridLevel.price = [100, 100, 100] := by
    decide
  refine ⟨by decide, by decide, hmap, ?_⟩
  rw [hmap]
  intro hchain
  rw [List.chain'_cons] at hchain
  exact absurd hchain.1 (by norm_num)

/-- C5 witness: the amended statement applied to `cfgA` with ratio 2. -/
theorem C5_witness :
    ValidConfig cfgA ∧ RatioSpec cfgA 2 ∧
    List.Chain' (· < ·) (gen_prices cfgA.lower_price 2 cfgA.num_levels) ∧
    List.Chain' (fun a b => b = a * 2) (gen_prices cfgA.lower_price 2 cfgA.num_levels) ∧
    List.Chain' (· ≤ ·) ((mkBot cfgA 2).levels.map GridLevel.price) := by
  have H := C5_ladder_monotone cfgA 2 (by decide) (by decide)
  exact ⟨by decide, by decide, H.1, H.2.1, H.2.2⟩

/-- C4, refuting input: ticking twice at 200 (exactly a level price) from
the constructed engine of `cfgA` appends trades on the second tick as well:
the 200 level is bought and immediately re-sold within each tick. -/
theorem C4_counterexample :
    ValidConfig cfgA ∧ RatioSpec cfgA 2 ∧
    on_price_tick (mkBot cfgA 2) 200 = Except.ok tbA200 ∧
    on_price_tick tbA200 200 = Except.ok tbA200b ∧
    tbA200b.trade_history.length ≠ tbA200.trade_history.length := by
  decide

/-- C4 witness: at tick price 150, separated from both level prices, the
second identical tick returns the state unchanged. -/
theorem C4_witness :
    on_price_tick (mkBot cfgA 2) 150 = Except.ok tbA150 ∧
    (∀ lv ∈ (mkBot cfgA 2).levels,
      ¬ ((150 : ℚ) ≤ lv.price + (mkBot cfgA 2).eps ∧
        lv.price - (mkBot cfgA 2).eps ≤ 150)) ∧
    on_price_tick tbA150 150 = Except.ok tbA150 := by
  have h1 : on_price_tick (mkBot cfgA 2) 150 = Except.ok tbA150 := by decide
  have hsep : ∀ lv ∈ (mkBot cfgA 2).levels,
      ¬ ((150 : ℚ) ≤ lv.price + (mkBot cfgA 2).eps ∧
        lv.price - (mkBot cfgA 2).eps ≤ 150) := by decide
  exact ⟨h1, hsep, C4_retick_identity (mkBot cfgA 2) 150 tbA150 hsep h1⟩

/-- C9, refuting input: at tick price 200, exactly a level price, the source
order (buys then sells) ends with the 200 level holding quote after a
buy-and-resell, while the sells-first order ends with it holding base; the
balances, levels and trade counts all differ. -/
theorem C9_counterexample :
    ValidConfig cfgA ∧ RatioSpec cfgA 2 ∧
    on_price_tick (mkBot cfgA 2) 200 = Except.ok tbA200 ∧
    on_price_tick_sells_first (mkBot cfgA 2) 200 = Except.ok tbS200 ∧
    tbA200.levels ≠ tbS200.levels ∧
    tbA200.trade_history.length ≠ tbS200.trade_history.length := by
  decide

/-- C9 witness: at tick price 150 both orders succeed and the amended
statement applies; one buy and one sell execute, so the histories are
permutations in different order. -/
theorem C9_witness :
    on_price_tick (mkBot cfgA 2) 150 = Except.ok tbA150 ∧
    on_price_tick_sells_first (mkBot cfgA 2) 150 = Except.ok tbS150 ∧
    (∀ lv ∈ (mkBot cfgA 2).levels,
      ¬ ((150 : ℚ) ≤ lv.price + (mkBot cfgA 2).eps ∧
        lv.price - (mkBot cfgA 2).eps ≤ 150)) ∧
    tbA150.base_balance = tbS150.base_balance ∧
    tbA150.quote_balance = tbS150.quote_balance ∧
    tbA150.levels = tbS150.levels ∧
    tbA150.trade_history.Perm tbS150.trade_history := by
  have ha : on_price_tick (mkBot cfgA 2) 150 = Except.ok tbA150 := by decide
  have hb : on_price_tick_sells_first (mkBot cfgA 2) 150 = Except.ok tbS150 := by decide
  have hsep : ∀ lv ∈ (mkBot cfgA 2).levels,
      ¬ ((150 : ℚ) ≤ lv.price + (mkBot cfgA 2).eps ∧
        lv.price - (mkBot cfgA 2).eps ≤ 150) := by decide
  have H := C9_pass_order_commutes (mkBot cfgA 2) 150 tbA150 tbS150 hsep ha hb
  exact ⟨ha, hb, hsep, H.1, H.2.1, H.2.2.1, H.2.2.2⟩

/-- C8 witness: a tick on an engine whose quote balance cannot honour the
single triggered buy raises an insufficient-balance error from the buy
pass, the error propagates out of the tick, and the decomposition of the
theorem applies. -/
theorem C8_witness :
    botC8.eps < 50 ∧
    run_pass (buy_step 50) botC8 botC8.levels =
      Except.error (GridError.insufficientBalance, botC8, botC8.levels) ∧
    (on_price_tick botC8 50 =
      Except.error (GridError.insufficientBalance, { botC8 with levels := botC8.levels }) ∧
    ∃ done done' lv rest,
      botC8.levels = done ++ lv :: rest ∧ botC8.levels = done' ++ lv :: rest ∧
      run_pass (buy_step 50) botC8 done = Except.ok (botC8, done') ∧
      buy_step 50 botC8 lv = Except.error GridError.insufficientBalance) := by
  have hp : botC8.eps < 50 := by decide
  have h : run_pass (buy_step 50) botC8 botC8.levels =
      Except.error (GridError.insufficientBalance, botC8, botC8.levels) := by decide
  exact ⟨hp, h, (C8_error_propagation botC8 50 hp).1 GridError.insufficientBalance
    botC8 botC8.levels h⟩

end ConcreteEvaluation

end GridTrader
